import Mathlib

/-!
Formal model of the Mixel sprite generator (`src/Mixel.ts`).

The structural grid is represented as a total function `ℕ → ℕ → ℤ`: the
TypeScript code stores structural codes in a flat array indexed by
`y * effectiveWidth + x`, and every read and write performed by the pipeline
stages stays inside the effective bounds, so a coordinate-indexed total
function is a faithful representation of the in-range contents.

The seeded pseudorandom source (`seedrandom`, an external npm dependency) is
represented by an explicit stream `s : ℕ → ℚ` of draw results together with a
draw index threaded through the stages; `s i` is the result of the `i`-th call
to `this.rng()`.  `Math.sin` of the JS runtime is likewise external code; the
factor `Math.sin((u / ulen) * π)` is taken as an explicit function parameter
`sinPi : ℚ → ℚ` of the colorization stage.
-/

namespace Mixel

/-- Structural codes of `SpriteStructure`: `AlwaysBorder = -1`, `Empty = 0`,
`RandomlyEmptyBody = 1`, `RandomlyBorderBody = 2`. -/
abbrev Grid := ℕ → ℕ → ℤ

/-- Value used to model the JavaScript `undefined` that an out-of-range read
of `mask.data` yields.  Every use the pipeline makes of a cell value is a
strict comparison against `-1`, `0`, `1` or `2` (or the `>= 0` test of
`toString`), and `undefined` fails all of those comparisons exactly as the
integer `-2` does, so `-2` is a behaviourally faithful stand-in. -/
def undefVal : ℤ := -2

/-- Write one cell of the structural grid (`Sprite.setData`). -/
def setG (g : Grid) (x y : ℕ) (v : ℤ) : Grid :=
  fun x' y' => if x' = x ∧ y' = y then v else g x' y'

/-- The mask input (`Mask` interface). -/
structure Mask where
  data : List ℤ
  width : ℕ
  height : ℕ
  mirrorX : Bool
  mirrorY : Bool

/-- Multiplicative tint factors (`SpriteOptions.tint`). -/
structure Tint where
  r : ℚ
  g : ℚ
  b : ℚ

/-- Generation options (`SpriteOptions`), after field-by-field defaulting.
`randomSampleCallback = none` selects the built-in sampling policy; a user
override is modelled as a pure function of the coordinates. -/
structure SpriteOptions where
  colored : Bool
  edgeBrightness : ℚ
  colorVariations : ℚ
  brightnessNoise : ℚ
  saturation : ℚ
  seed : Option String
  tint : Option Tint
  randomSampleCallback : Option (ℕ → ℕ → ℤ)

/-- The default option record (`defaults` in the constructor). -/
def defaultOptions : SpriteOptions :=
  ⟨false, 3/10, 1/5, 3/10, 1/2, none, none, none⟩

/-- Effective width: `mask.width * (mask.mirrorX ? 2 : 1)` (`Sprite.width`). -/
def effW (m : Mask) : ℕ := m.width * (if m.mirrorX then 2 else 1)

/-- Effective height: `mask.height * (mask.mirrorY ? 2 : 1)` (`Sprite.height`). -/
def effH (m : Mask) : ℕ := m.height * (if m.mirrorY then 2 else 1)

/-- Condition of the first `console.warn` in the constructor:
`this.width % 2 && this.mask.mirrorX`. -/
def warnX (m : Mask) : Prop := effW m % 2 ≠ 0 ∧ m.mirrorX = true

/-- Condition of the second `console.warn` in the constructor:
`this.height % 2 && this.mask.mirrorY`. -/
def warnY (m : Mask) : Prop := effH m % 2 ≠ 0 ∧ m.mirrorY = true

instance (m : Mask) : Decidable (warnX m) := by unfold warnX; infer_instance
instance (m : Mask) : Decidable (warnY m) := by unfold warnY; infer_instance

/-- The grid before any stage runs:
`Array(this.width * this.height).fill(SpriteStructure.AlwaysBorder)`. -/
def initGrid : Grid := fun _ _ => (-1 : ℤ)

/-- Row-major list of the positions of a `width × height` grid, matching
`for (y ...) for (x ...)` iteration order. -/
def posList (w h : ℕ) : List (ℕ × ℕ) :=
  ((List.range h).map (fun y => (List.range w).map (fun x => (x, y)))).flatten

/-- Copy the mask into the top-left region (`Sprite.applyMask`).  An
out-of-range read of `mask.data` yields `undefined`, modelled by
`undefVal`. -/
def applyMask (m : Mask) (g : Grid) : Grid :=
  (posList m.width m.height).foldl
    (fun g p => setG g p.1 p.2 (m.data.getD (p.2 * m.width + p.1) undefVal)) g

/-- Math.round of a JS number (used on values in `[0,1)` only). -/
def jsRound (q : ℚ) : ℤ := ⌊q + 1/2⌋

/-- One callback invocation of the default sampling policy (the
`randomSampleCallback` closure of `defaults` in the constructor).  Returns the
new cell value and the next draw index. -/
def defaultSample (s : ℕ → ℚ) (g : Grid) (x y : ℕ) (i : ℕ) : ℤ × ℕ :=
  let val := g x y
  if val = 1 then (val * jsRound (s i), i + 1)
  else if val = 2 then ((if s i > 1/2 then 1 else -1), i + 1)
  else (val, i)

/-- One callback invocation during `generateRandomSample`: either the user
override or the default policy. -/
def sampleCell (o : SpriteOptions) (s : ℕ → ℚ) (g : Grid) (x y : ℕ) (i : ℕ) :
    ℤ × ℕ :=
  match o.randomSampleCallback with
  | some f => (f x y, i)
  | none => defaultSample s g x y i

/-- The `generateRandomSample` pass over the full effective grid. -/
def randomSample (o : SpriteOptions) (s : ℕ → ℚ) (w h : ℕ)
    (g : Grid) (i : ℕ) : Grid × ℕ :=
  (posList w h).foldl
    (fun gi p =>
      let r := sampleCell o s gi.1 p.1 p.2 gi.2
      (setG gi.1 p.1 p.2 r.1, r.2))
    (g, i)

/-- The `mirrorX` pass: for each row, copy column `x` onto column
`width - x - 1` for `x < ⌊width / 2⌋`. -/
def mirrorXPass (w h : ℕ) (g : Grid) : Grid :=
  (posList (w / 2) h).foldl
    (fun g p => setG g (w - p.1 - 1) p.2 (g p.1 p.2)) g

/-- The `mirrorY` pass: copy row `y` onto row `height - y - 1` for
`y < ⌊height / 2⌋`. -/
def mirrorYPass (w h : ℕ) (g : Grid) : Grid :=
  (posList w (h / 2)).foldl
    (fun g p => setG g p.1 (h - p.2 - 1) (g p.1 p.2)) g

/-- One guarded neighbour write of `generateEdges`:
`if (guard && getData(x, y) === Empty) setData(x, y, AlwaysBorder)`,
reading the current (in-place mutated) grid. -/
def writeIfEmpty (c : Prop) [Decidable c] (g : Grid) (x y : ℕ) : Grid :=
  if c ∧ g x y = 0 then setG g x y (-1) else g

/-- Visiting one cell in `generateEdges`: a cell holding neither
`AlwaysBorder` nor `Empty` overwrites each of its four axis-adjacent
neighbours that currently holds `Empty` with `AlwaysBorder`, in the order
up, down, left, right, each write visible to the following checks. -/
def edgeStep (w h : ℕ) (g : Grid) (x y : ℕ) : Grid :=
  let val := g x y
  if val = -1 ∨ val = 0 then g
  else
    let g1 := writeIfEmpty (1 ≤ y) g x (y - 1)
    let g2 := writeIfEmpty (y + 1 < h) g1 x (y + 1)
    let g3 := writeIfEmpty (1 ≤ x) g2 (x - 1) y
    writeIfEmpty (x + 1 < w) g3 (x + 1) y

/-- The single in-place row-major `generateEdges` pass. -/
def generateEdges (w h : ℕ) (g : Grid) : Grid :=
  (posList w h).foldl (fun g p => edgeStep w h g p.1 p.2) g

/-- The non-canonical HSL-like transform `Sprite.hslToRgb`.  `hue` values
produced by the pipeline lie in `[0,1)`, for which `i % 6 ∈ [0,5]` and the
`switch` always selects a branch. -/
def hslToRgb (h s l : ℚ) : ℚ × ℚ × ℚ :=
  let i : ℤ := ⌊h * 6⌋
  let f : ℚ := h * 6 - (i : ℚ)
  let p := l * (1 - s)
  let q := l * (1 - f * s)
  let t := l * (1 - (1 - f) * s)
  if i % 6 = 0 then (l, t, p)
  else if i % 6 = 1 then (q, l, p)
  else if i % 6 = 2 then (p, l, t)
  else if i % 6 = 3 then (p, q, l)
  else if i % 6 = 4 then (t, p, l)
  else (l, p, q)

/-- The per-`u` colour-change prelude of `calculateColors` (lines 199-209).
The source evaluates a JavaScript comma expression of three draws
`rng()*2-1`, so the first two draws are consumed but discarded and only the
third flows into the division by 3 and `Math.abs`; then the hue is redrawn
exactly when the result exceeds `1 - colorVariations`.  Returns the new hue
and the next draw index. -/
def newColorStep (o : SpriteOptions) (s : ℕ → ℚ) (hue : ℚ) (i : ℕ) : ℚ × ℕ :=
  let _d1 := s i * 2 - 1
  let i := i + 1
  let _d2 := s i * 2 - 1
  let i := i + 1
  let d3 := s i * 2 - 1
  let i := i + 1
  let isNewColor := |d3 / 3|
  if isNewColor > 1 - o.colorVariations then (s i, i + 1) else (hue, i)

/-- Resolve the tint mask: `Options.tint` if present, else `(1,1,1)`. -/
def tintOf (o : SpriteOptions) : Tint :=
  match o.tint with
  | some t => t
  | none => ⟨1, 1, 1⟩

/-- The body of the inner `v` loop of `calculateColors` for one cell: the
four byte stores (channel order R,G,B,A at `index .. index+3`), with the
in-place tint multiplication of the three colour channels folded into the
stored values, plus the next draw index. -/
def colorCell (o : SpriteOptions) (s : ℕ → ℚ) (sinPi : ℚ → ℚ) (g : Grid)
    (isV : Bool) (ulen vlen u v : ℕ) (hue sat : ℚ) (i : ℕ) :
    List (ℕ × ℚ) × ℕ :=
  let val := if isV then g v u else g u v
  let index := if isV then (u * vlen + v) * 4 else (v * ulen + u) * 4
  let tm := tintOf o
  if val ≠ 0 then
    if o.colored then
      let brightness := sinPi ((u : ℚ) / (ulen : ℚ)) * (1 - o.brightnessNoise)
                        + s i + o.brightnessNoise
      let c := hslToRgb hue sat brightness
      let c := if val = -1 then
          (c.1 * o.edgeBrightness, c.2.1 * o.edgeBrightness,
           c.2.2 * o.edgeBrightness)
        else c
      ([(index, c.1 * 255 * tm.r), (index + 1, c.2.1 * 255 * tm.g),
        (index + 2, c.2.2 * 255 * tm.b), (index + 3, 255)], i + 1)
    else
      let c : ℚ × ℚ × ℚ := if val = -1 then (0, 0, 0) else (1, 1, 1)
      ([(index, c.1 * 255 * tm.r), (index + 1, c.2.1 * 255 * tm.g),
        (index + 2, c.2.2 * 255 * tm.b), (index + 3, 255)], i)
  else
    ([(index, 255), (index + 1, 255), (index + 2, 255), (index + 3, 255)], i)

/-- The inner `v` loop of `calculateColors`, iterating `fuel` cells starting
at `v`.  Returns the write events in store order and the next draw index. -/
def innerLoop (o : SpriteOptions) (s : ℕ → ℚ) (sinPi : ℚ → ℚ) (g : Grid)
    (isV : Bool) (ulen vlen u : ℕ) (hue sat : ℚ) :
    ℕ → ℕ → ℕ → List (ℕ × ℚ) × ℕ
  | _, 0, i => ([], i)
  | v, fuel + 1, i =>
    let r := colorCell o s sinPi g isV ulen vlen u v hue sat i
    let rest := innerLoop o s sinPi g isV ulen vlen u hue sat (v + 1) fuel r.2
    (r.1 ++ rest.1, rest.2)

/-- The outer `u` loop of `calculateColors`, iterating `fuel` gradient rows
starting at `u`, threading the hue and the draw index. -/
def outerLoop (o : SpriteOptions) (s : ℕ → ℚ) (sinPi : ℚ → ℚ) (g : Grid)
    (isV : Bool) (ulen vlen : ℕ) (sat : ℚ) :
    ℕ → ℕ → ℚ → ℕ → List (ℕ × ℚ) × ℕ
  | _, 0, _, i => ([], i)
  | u, fuel + 1, hue, i =>
    let hi := newColorStep o s hue i
    let row := innerLoop o s sinPi g isV ulen vlen u hi.1 sat 0 vlen hi.2
    let rest := outerLoop o s sinPi g isV ulen vlen sat (u + 1) fuel hi.1 row.2
    (row.1 ++ rest.1, rest.2)

/-- The `calculateColors` stage: draws the gradient orientation, the
saturation and the initial hue, then runs the nested loops.  Returns the
ordered list of byte stores into `imageData` and the final draw index. -/
def calculateColors (o : SpriteOptions) (s : ℕ → ℚ) (sinPi : ℚ → ℚ)
    (w h : ℕ) (g : Grid) (i : ℕ) : List (ℕ × ℚ) × ℕ :=
  let isV : Bool := decide (s i > 1/2)
  let sat := max (min (s (i + 1) * o.saturation) 1) 0
  let hue := s (i + 2)
  let ulen := if isV then h else w
  let vlen := if isV then w else h
  outerLoop o s sinPi g isV ulen vlen sat 0 ulen hue (i + 3)

/-- The result of one generation: the structural grid after edge synthesis
and the ordered list of `imageData` stores. -/
structure GenResult where
  grid : Grid
  events : List (ℕ × ℚ)
  finalIndex : ℕ

/-- One full generation (`Sprite.init` called from the constructor):
ApplyMask, RandomSample, MirrorX, MirrorY, SynthesizeEdges, Colorize. -/
def generate (m : Mask) (o : SpriteOptions) (s : ℕ → ℚ) (sinPi : ℚ → ℚ) :
    GenResult :=
  let g1 := applyMask m initGrid
  let r2 := randomSample o s (effW m) (effH m) g1 0
  let g3 := if m.mirrorX then mirrorXPass (effW m) (effH m) r2.1 else r2.1
  let g4 := if m.mirrorY then mirrorYPass (effW m) (effH m) g3 else g3
  let g5 := generateEdges (effW m) (effH m) g4
  let ev := calculateColors o s sinPi (effW m) (effH m) g5 r2.2
  ⟨g5, ev.1, ev.2⟩

/-- The value a JS array read of `imageData[j]` yields after the stores in
`l` were performed in order (later stores win); unwritten slots default
to `0` — the coverage results below show every slot below the buffer length
is written. -/
def writeLookup (l : List (ℕ × ℚ)) (j : ℕ) : ℚ :=
  l.foldl (fun acc e => if e.1 = j then e.2 else acc) 0

/-- Length of the JS `imageData` array after the stores in `l`: one more
than the largest index stored (0 when nothing was stored). -/
def bufLen (l : List (ℕ × ℚ)) : ℕ :=
  l.foldl (fun acc e => max acc (e.1 + 1)) 0

/-- The four RGBA bytes of the pixel of cell `(x, y)`, which both gradient
orientations store at base index `(y * w + x) * 4`. -/
def pixQuad (l : List (ℕ × ℚ)) (w x y : ℕ) : ℚ × ℚ × ℚ × ℚ :=
  (writeLookup l ((y * w + x) * 4), writeLookup l ((y * w + x) * 4 + 1),
   writeLookup l ((y * w + x) * 4 + 2), writeLookup l ((y * w + x) * 4 + 3))

/-- The stream of `next()` results of the external `seedrandom` library for
a given seed.  Modelled from the spec: "Given the same seed, the stream of
`next()` results is fully reproducible across repeated constructions" — the
library itself is an npm dependency outside this repository, so it is
modelled as a fixed function of the seed producing values in `[0,1)`. -/
def seedStream (sd : String) : ℕ → ℚ :=
  fun n => (((sd.length + 1) * (n + 1) * 7919) % 1000 : ℕ) / 1000

/-- A generation as the constructor performs it: when a seed is supplied the
draw stream is the reproducible `seedrandom` stream of that seed, otherwise
an ambient unseeded stream is used. -/
def runSeeded (m : Mask) (o : SpriteOptions) (ambient : ℕ → ℚ)
    (sinPi : ℚ → ℚ) : GenResult :=
  generate m o
    (match o.seed with
     | some sd => seedStream sd
     | none => ambient) sinPi

/-- A cell value the edge pass treats as a body cell: neither `AlwaysBorder`
nor `Empty` (the `continue` test of `generateEdges`, negated). -/
def isBody (v : ℤ) : Prop := ¬(v = -1 ∨ v = 0)

instance (v : ℤ) : Decidable (isBody v) := by unfold isBody; infer_instance

/-- The guarded write-target relation of one `generateEdges` visit: visiting
cell `p` writes to `(x, y)` exactly when `(x, y)` is one of the four
axis-adjacent neighbours whose bounds guard holds (up, down, left, right). -/
def writesTo (w h : ℕ) (p : ℕ × ℕ) (x y : ℕ) : Prop :=
  (1 ≤ p.2 ∧ x = p.1 ∧ y = p.2 - 1) ∨
  (p.2 + 1 < h ∧ x = p.1 ∧ y = p.2 + 1) ∨
  (1 ≤ p.1 ∧ x = p.1 - 1 ∧ y = p.2) ∨
  (p.1 + 1 < w ∧ x = p.1 + 1 ∧ y = p.2)

instance (w h : ℕ) (p : ℕ × ℕ) (x y : ℕ) : Decidable (writesTo w h p x y) := by
  unfold writesTo; infer_instance

/-- Cell `(x, y)` has been overwritten to `AlwaysBorder` once the visits in
`done` have run: some visited cell is a body cell of the original grid whose
guarded write targets `(x, y)`.  Body cells never change during the pass
(only `Empty` cells are ever written), so body-ness can be read off the
original grid. -/
def received (w h : ℕ) (g : Grid) (done : List (ℕ × ℕ)) (x y : ℕ) : Prop :=
  ∃ p ∈ done, isBody (g p.1 p.2) ∧ writesTo w h p x y

instance (w h : ℕ) (g : Grid) (done : List (ℕ × ℕ)) (x y : ℕ) :
    Decidable (received w h g done x y) := by
  unfold received; exact List.decidableBEx _ done

/-- The grid state of the in-place edge pass after the visits in `done`:
an `Empty` cell targeted by a body visit has become `AlwaysBorder`, every
other cell is unchanged. -/
def overlay (w h : ℕ) (g : Grid) (done : List (ℕ × ℕ)) : Grid :=
  fun x y => if g x y = 0 ∧ received w h g done x y then -1 else g x y

/-- Modelled from the spec: the two-buffer variant of edge synthesis, which
claim C5 contrasts with the in-place pass — "applying the same neighbor rule
against a snapshot of the grid taken before the pass".  Every cell of the
output is computed from the snapshot alone: an in-range `Empty` cell becomes
`AlwaysBorder` exactly when one of its in-bounds axis-adjacent neighbours is
a body cell in the snapshot, and every other cell keeps its snapshot
value. -/
def edgeSnapshot (w h : ℕ) (g : Grid) : Grid :=
  fun x y =>
    if x < w ∧ y < h ∧ g x y = 0 ∧
       ((1 ≤ y ∧ isBody (g x (y - 1))) ∨ (y + 1 < h ∧ isBody (g x (y + 1))) ∨
        (1 ≤ x ∧ isBody (g (x - 1) y)) ∨ (x + 1 < w ∧ isBody (g (x + 1) y)))
    then -1 else g x y

/-- A mask whose data length (1) differs from `width * height` (2). -/
def badMask : Mask := ⟨[0], 2, 1, false, false⟩

/-- A concrete 1-wide, 3-tall structural grid (`Empty`, `RandomlyBorderBody`,
`Empty` down the column) used to witness the edge-containment theorem. -/
def c8Grid : Grid := fun _ y => ([0, 2, 0] : List ℤ).getD y (-1)

/-- The 1×3 mask of the spec's concrete scenario B. -/
def specMaskB : Mask := ⟨[0, 2, 0], 1, 3, false, false⟩

/-- A 1×1 mask with `mirrorX` set (effective size 2×1). -/
def c2Mask : Mask := ⟨[1], 1, 1, true, false⟩

/-- Default options except `colored = true`, with a sampling callback that
keeps every cell a body cell. -/
def c2Options : SpriteOptions :=
  ⟨true, 3/10, 1/5, 3/10, 1/2, none, none, some (fun _ _ => 1)⟩

/-- A concrete draw stream in `[0, 1)`: the gradient is vertical, the
saturation draw is 0, and the two per-pixel brightness draws of the
mirrored pair differ (0 versus 1/2). -/
def c2Stream : ℕ → ℚ :=
  fun n => ([3/4, 0, 0, 0, 0, 0, 0, 1/2] : List ℚ).getD n 0

/-- The four byte indices one cell visit of `calculateColors` stores to. -/
def idx4 (p : ℕ) : List ℕ := [p, p + 1, p + 2, p + 3]

/-- The base `imageData` index of the visit at gradient coordinates
`(u, v)`, exactly as computed inside `calculateColors`. -/
def posIndex (isV : Bool) (ulen vlen u v : ℕ) : ℕ :=
  if isV then (u * vlen + v) * 4 else (v * ulen + u) * 4

/-- Byte indices stored by one full inner loop at gradient row `u`. -/
def rowIdx (isV : Bool) (ulen vlen u : ℕ) : List ℕ :=
  ((List.range vlen).map (fun v => idx4 (posIndex isV ulen vlen u v))).flatten

/-- Byte indices stored by the whole colorization pass. -/
def allIdx (isV : Bool) (ulen vlen : ℕ) : List ℕ :=
  ((List.range ulen).map (fun u => rowIdx isV ulen vlen u)).flatten

/-- The four RGBA bytes that the non-colored branch of `calculateColors`
stores for a cell holding code `v`: white for any non-border drawable or
`Empty` cell, black for `AlwaysBorder`, tint applied to the colour
channels of non-`Empty` cells, alpha always 255. -/
def flatQuad (o : SpriteOptions) (v : ℤ) : ℚ × ℚ × ℚ × ℚ :=
  let tm := tintOf o
  if v ≠ 0 then
    let c : ℚ × ℚ × ℚ := if v = -1 then (0, 0, 0) else (1, 1, 1)
    (c.1 * 255 * tm.r, c.2.1 * 255 * tm.g, c.2.2 * 255 * tm.b, 255)
  else (255, 255, 255, 255)

/-- The four write events of one non-colored cell visit. -/
def cellEvents (o : SpriteOptions) (g : Grid) (isV : Bool)
    (ulen vlen u v : ℕ) : List (ℕ × ℚ) :=
  let q := flatQuad o (if isV then g v u else g u v)
  let p := posIndex isV ulen vlen u v
  [(p, q.1), (p + 1, q.2.1), (p + 2, q.2.2.1), (p + 3, q.2.2.2)]

/-- The write events of one full non-colored inner loop. -/
def rowEvents (o : SpriteOptions) (g : Grid) (isV : Bool)
    (ulen vlen u : ℕ) : List (ℕ × ℚ) :=
  ((List.range vlen).map (fun v => cellEvents o g isV ulen vlen u v)).flatten

/-- The write events of the whole non-colored colorization pass. -/
def allEvents (o : SpriteOptions) (g : Grid) (isV : Bool)
    (ulen vlen : ℕ) : List (ℕ × ℚ) :=
  ((List.range ulen).map (fun u => rowEvents o g isV ulen vlen u)).flatten

/-- Replace only the `edgeBrightness` field of an option record. -/
def withEdgeBrightness (o : SpriteOptions) (e : ℚ) : SpriteOptions :=
  ⟨o.colored, e, o.colorVariations, o.brightnessNoise, o.saturation,
   o.seed, o.tint, o.randomSampleCallback⟩

/-- Column symmetry of the in-range part of a grid. -/
def symmX (w h : ℕ) (g : Grid) : Prop :=
  ∀ x y, x < w → y < h → g (w - 1 - x) y = g x y

/-- Row symmetry of the in-range part of a grid. -/
def symmY (w h : ℕ) (g : Grid) : Prop :=
  ∀ x y, x < w → y < h → g x (h - 1 - y) = g x y

/-- The grid state of the `mirrorX` pass after the copies in `done`:
a cell targeted by a processed copy holds the value of its horizontal
mirror image, every other cell is unchanged.  Sources lie strictly in the
left half, targets strictly in the right half, so the copies never feed
each other. -/
def mOverlayX (w : ℕ) (g : Grid) (done : List (ℕ × ℕ)) : Grid :=
  fun x y => if ∃ p ∈ done, x = w - p.1 - 1 ∧ y = p.2
             then g (w - x - 1) y else g x y

instance (w : ℕ) (g : Grid) (done : List (ℕ × ℕ)) (x y : ℕ) :
    Decidable (∃ p ∈ done, x = w - p.1 - 1 ∧ y = p.2) :=
  List.decidableBEx _ done

/-- The grid state of the `mirrorY` pass after the copies in `done`. -/
def mOverlayY (h : ℕ) (g : Grid) (done : List (ℕ × ℕ)) : Grid :=
  fun x y => if ∃ p ∈ done, x = p.1 ∧ y = h - p.2 - 1
             then g x (h - y - 1) else g x y

instance (h : ℕ) (g : Grid) (done : List (ℕ × ℕ)) (x y : ℕ) :
    Decidable (∃ p ∈ done, x = p.1 ∧ y = h - p.2 - 1) :=
  List.decidableBEx _ done

/-! ### Lengths of the colorization output -/

theorem colorCell_length (o : SpriteOptions) (s : ℕ → ℚ) (sinPi : ℚ → ℚ)
    (g : Grid) (isV : Bool) (ulen vlen u v : ℕ) (hue sat : ℚ) (i : ℕ) :
    (colorCell o s sinPi g isV ulen vlen u v hue sat i).1.length = 4 := by
  simp only [colorCell]
  split_ifs <;> rfl

theorem innerLoop_length (o : SpriteOptions) (s : ℕ → ℚ) (sinPi : ℚ → ℚ)
    (g : Grid) (isV : Bool) (ulen vlen u : ℕ) (hue sat : ℚ) :
    ∀ (fuel v i : ℕ),
      (innerLoop o s sinPi g isV ulen vlen u hue sat v fuel i).1.length =
        fuel * 4 := by
  intro fuel
  induction fuel with
  | zero => intro v i; rfl
  | succ n ih =>
    intro v i
    simp only [innerLoop, List.length_append, ih, colorCell_length]
    ring

theorem outerLoop_length (o : SpriteOptions) (s : ℕ → ℚ) (sinPi : ℚ → ℚ)
    (g : Grid) (isV : Bool) (ulen vlen : ℕ) (sat : ℚ) :
    ∀ (fuel u : ℕ) (hue : ℚ) (i : ℕ),
      (outerLoop o s sinPi g isV ulen vlen sat u fuel hue i).1.length =
        fuel * vlen * 4 := by
  intro fuel
  induction fuel with
  | zero => intro u hue i; simp [outerLoop]
  | succ n ih =>
    intro u hue i
    simp only [outerLoop, List.length_append, ih, innerLoop_length]
    ring

theorem calculateColors_length (o : SpriteOptions) (s : ℕ → ℚ)
    (sinPi : ℚ → ℚ) (w h : ℕ) (g : Grid) (i : ℕ) :
    (calculateColors o s sinPi w h g i).1.length = 4 * (w * h) := by
  simp only [calculateColors]
  rw [outerLoop_length]
  split_ifs <;> ring

theorem generate_events_length (m : Mask) (o : SpriteOptions) (s : ℕ → ℚ)
    (sinPi : ℚ → ℚ) :
    (generate m o s sinPi).events.length = 4 * (effW m * effH m) := by
  unfold generate
  exact calculateColors_length ..

/-! ### The edge-synthesis pass -/

theorem writeIfEmpty_apply (c : Prop) [Decidable c] (g : Grid) (x y a b : ℕ) :
    writeIfEmpty c g x y a b =
      if a = x ∧ b = y ∧ c ∧ g x y = 0 then -1 else g a b := by
  by_cases h1 : c ∧ g x y = 0
  · unfold writeIfEmpty setG
    rw [if_pos h1]
    show (if a = x ∧ b = y then (-1 : ℤ) else g a b) = _
    split_ifs <;> tauto
  · unfold writeIfEmpty
    rw [if_neg h1, if_neg (by tauto)]

set_option maxRecDepth 8000 in
/-- One body-cell visit behaves as four simultaneous guarded writes against
the grid as it stood when the visit began: the four targets are pairwise
distinct, so the sequential in-place writes never feed each other. -/
theorem edgeStep_char (w h : ℕ) (G : Grid) (px py : ℕ)
    (hb : ¬(G px py = -1 ∨ G px py = 0)) :
    edgeStep w h G px py =
      fun a b => if writesTo w h (px, py) a b ∧ G a b = 0 then -1
                 else G a b := by
  have fB : py + 1 ≠ py - 1 := by omega
  have fC : px + 1 ≠ px - 1 := by omega
  have fD : px + 1 ≠ px := by omega
  have fE : py ≠ py + 1 := by omega
  have f5 : ∀ q : Prop, (py = py - 1 ∧ 1 ≤ py ∧ q) ↔ False :=
    fun q => iff_false_intro (by rintro ⟨h1, h2, -⟩; omega)
  funext a b
  simp only [edgeStep]
  rw [if_neg hb]
  simp only [writeIfEmpty_apply, fB, fC, fD, fE, f5, false_and,
    and_false, if_false, eq_self_iff_true, true_and]
  by_cases h4 : a = px + 1 ∧ b = py ∧ px + 1 < w ∧ G (px + 1) py = 0
  · obtain ⟨rfl, rfl, hc, hg⟩ := h4
    rw [if_pos ⟨rfl, rfl, hc, hg⟩,
        if_pos ⟨Or.inr (Or.inr (Or.inr ⟨hc, rfl, rfl⟩)), hg⟩]
  · rw [if_neg h4]
    by_cases h3 : a = px - 1 ∧ b = py ∧ 1 ≤ px ∧ G (px - 1) py = 0
    · obtain ⟨rfl, rfl, hc, hg⟩ := h3
      rw [if_pos ⟨rfl, rfl, hc, hg⟩,
          if_pos ⟨Or.inr (Or.inr (Or.inl ⟨hc, rfl, rfl⟩)), hg⟩]
    · rw [if_neg h3]
      by_cases h2 : a = px ∧ b = py + 1 ∧ py + 1 < h ∧ G px (py + 1) = 0
      · obtain ⟨rfl, rfl, hc, hg⟩ := h2
        rw [if_pos ⟨rfl, rfl, hc, hg⟩,
            if_pos ⟨Or.inr (Or.inl ⟨hc, rfl, rfl⟩), hg⟩]
      · rw [if_neg h2]
        by_cases h1 : a = px ∧ b = py - 1 ∧ 1 ≤ py ∧ G px (py - 1) = 0
        · obtain ⟨rfl, rfl, hc, hg⟩ := h1
          rw [if_pos ⟨rfl, rfl, hc, hg⟩,
              if_pos ⟨Or.inl ⟨hc, rfl, rfl⟩, hg⟩]
        · rw [if_neg h1, if_neg ?hn]
          case hn =>
            rintro ⟨hw, hg⟩
            unfold writesTo at hw
            rcases hw with ⟨hc, rfl, rfl⟩ | ⟨hc, rfl, rfl⟩ |
              ⟨hc, rfl, rfl⟩ | ⟨hc, rfl, rfl⟩
            · exact h1 ⟨rfl, rfl, hc, hg⟩
            · exact h2 ⟨rfl, rfl, hc, hg⟩
            · exact h3 ⟨rfl, rfl, hc, hg⟩
            · exact h4 ⟨rfl, rfl, hc, hg⟩

theorem overlay_nil (w h : ℕ) (g : Grid) : overlay w h g [] = g := by
  funext a b
  simp [overlay, received]

/-- Body cells of the original grid are untouched by the pass so far. -/
theorem overlay_body (w h : ℕ) (g : Grid) (done : List (ℕ × ℕ)) (x y : ℕ)
    (hx : g x y ≠ 0) : overlay w h g done x y = g x y := by
  simp [overlay, hx]

/-- Processing one more cell moves the in-place pass from the overlay of
`done` to the overlay of `done ++ [(px, py)]`. -/
theorem edgeStep_overlay (w h : ℕ) (g : Grid) (done : List (ℕ × ℕ))
    (px py : ℕ) :
    edgeStep w h (overlay w h g done) px py =
      overlay w h g (done ++ [(px, py)]) := by
  by_cases hbody : isBody (g px py)
  · have hne : g px py ≠ 0 := by unfold isBody at hbody; tauto
    have hval : overlay w h g done px py = g px py := overlay_body _ _ _ _ _ _ hne
    have hb : ¬(overlay w h g done px py = -1 ∨ overlay w h g done px py = 0) := by
      rw [hval]; exact hbody
    rw [edgeStep_char w h _ px py hb]
    funext a b
    by_cases hg : g a b = 0
    · by_cases hr : received w h g done a b
      · have : overlay w h g done a b = -1 := by simp [overlay, hg, hr]
        have hR : overlay w h g (done ++ [(px, py)]) a b = -1 := by
          simp only [overlay, received]
          rw [if_pos]
          refine ⟨hg, ?_⟩
          obtain ⟨p, hp, hrest⟩ := hr
          exact ⟨p, List.mem_append_left _ hp, hrest⟩
        rw [this, hR]
        split_ifs <;> rfl
      · have hO : overlay w h g done a b = 0 := by simp [overlay, hg, hr]
        rw [hO]
        by_cases hw : writesTo w h (px, py) a b
        · have hR : overlay w h g (done ++ [(px, py)]) a b = -1 := by
            simp only [overlay, received]
            rw [if_pos]
            exact ⟨hg, (px, py), List.mem_append_right _ (List.mem_singleton_self _),
              hbody, hw⟩
          rw [if_pos ⟨hw, rfl⟩, hR]
        · have hR : overlay w h g (done ++ [(px, py)]) a b = g a b := by
            simp only [overlay, received]
            rw [if_neg]
            rintro ⟨-, p, hp, hpb, hpw⟩
            rcases List.mem_append.mp hp with hp | hp
            · exact hr ⟨p, hp, hpb, hpw⟩
            · rw [List.mem_singleton.mp hp] at hpw
              exact hw hpw
          rw [if_neg (by tauto), hR, hg]
    · have hO : overlay w h g done a b = g a b := overlay_body _ _ _ _ _ _ hg
      have hR : overlay w h g (done ++ [(px, py)]) a b = g a b :=
        overlay_body _ _ _ _ _ _ hg
      rw [hO, hR, if_neg (by tauto)]
  · have hv : overlay w h g done px py = -1 ∨ overlay w h g done px py = 0 := by
      unfold isBody at hbody
      rcases not_not.mp hbody with h1 | h1
      · left; rw [overlay_body _ _ _ _ _ _ (by rw [h1]; decide), h1]
      · by_cases hr : received w h g done px py
        · left; simp [overlay, h1, hr]
        · right; simp [overlay, h1, hr]
    have hstep : edgeStep w h (overlay w h g done) px py =
        overlay w h g done := by
      unfold edgeStep
      rw [if_pos hv]
    rw [hstep]
    funext a b
    simp only [overlay, received]
    congr 1
    apply propext
    constructor
    · rintro ⟨hg, p, hp, hpb, hpw⟩
      exact ⟨hg, p, List.mem_append_left _ hp, hpb, hpw⟩
    · rintro ⟨hg, p, hp, hpb, hpw⟩
      rcases List.mem_append.mp hp with hp | hp
      · exact ⟨hg, p, hp, hpb, hpw⟩
      · rw [List.mem_singleton.mp hp] at hpb
        exact absurd hpb hbody

/-- Folding the in-place pass over a list of further visits extends the
overlay by exactly those visits. -/
theorem edgeFold_overlay (w h : ℕ) (g : Grid) :
    ∀ (rest done : List (ℕ × ℕ)),
      rest.foldl (fun g' p => edgeStep w h g' p.1 p.2)
          (overlay w h g done) =
        overlay w h g (done ++ rest) := by
  intro rest
  induction rest with
  | nil => intro done; simp
  | cons p rest ih =>
    intro done
    simp only [List.foldl_cons]
    rw [edgeStep_overlay, ih]
    simp

/-- The whole in-place `generateEdges` pass equals the overlay of all
row-major visits. -/
theorem generateEdges_eq_overlay (w h : ℕ) (g : Grid) :
    generateEdges w h g = overlay w h g (posList w h) := by
  unfold generateEdges
  have := edgeFold_overlay w h g (posList w h) []
  rwa [overlay_nil, List.nil_append] at this

theorem mem_posList (w h x y : ℕ) :
    (x, y) ∈ posList w h ↔ x < w ∧ y < h := by
  simp only [posList, List.mem_flatten, List.mem_map, List.mem_range]
  constructor
  · rintro ⟨l, ⟨y', hy', rfl⟩, hx⟩
    rcases List.mem_map.mp hx with ⟨x', hx', hxy⟩
    obtain ⟨rfl, rfl⟩ := Prod.mk.injEq .. ▸ hxy
    exact ⟨List.mem_range.mp hx', hy'⟩
  · rintro ⟨hx, hy⟩
    exact ⟨(List.range w).map (fun x' => (x', y)), ⟨y, hy, rfl⟩,
      List.mem_map.mpr ⟨x, List.mem_range.mpr hx, rfl⟩⟩

/-- The overlay of all visits is exactly the two-buffer snapshot rule. -/
theorem overlay_posList_eq_snapshot (w h : ℕ) (g : Grid) :
    overlay w h g (posList w h) = edgeSnapshot w h g := by
  funext a b
  simp only [overlay, edgeSnapshot, received]
  congr 1
  apply propext
  constructor
  · rintro ⟨hg, p, hp, hpb, hpw⟩
    obtain ⟨hpx, hpy⟩ := (mem_posList w h p.1 p.2).mp (by
      have : (p.1, p.2) = p := rfl
      rwa [this])
    rcases hpw with ⟨h1, rfl, rfl⟩ | ⟨h1, rfl, rfl⟩ | ⟨h1, rfl, rfl⟩ | ⟨h1, rfl, rfl⟩
    · refine ⟨hpx, by omega, hg, Or.inr (Or.inl ⟨by omega, ?_⟩)⟩
      have : p.2 - 1 + 1 = p.2 := by omega
      rwa [this]
    · exact ⟨hpx, by omega, hg, Or.inl ⟨by omega, by
        have : p.2 + 1 - 1 = p.2 := by omega
        rwa [this]⟩⟩
    · refine ⟨by omega, hpy, hg, Or.inr (Or.inr (Or.inr ⟨by omega, ?_⟩))⟩
      have : p.1 - 1 + 1 = p.1 := by omega
      rwa [this]
    · exact ⟨by omega, hpy, hg, Or.inr (Or.inr (Or.inl ⟨by omega, by
        have : p.1 + 1 - 1 = p.1 := by omega
        rwa [this]⟩))⟩
  · rintro ⟨ha, hb', hg, hnb⟩
    refine ⟨hg, ?_⟩
    rcases hnb with ⟨h1, hbdy⟩ | ⟨h1, hbdy⟩ | ⟨h1, hbdy⟩ | ⟨h1, hbdy⟩
    · exact ⟨(a, b - 1), (mem_posList ..).mpr ⟨ha, by omega⟩, hbdy,
        Or.inr (Or.inl ⟨by omega, rfl, by omega⟩)⟩
    · exact ⟨(a, b + 1), (mem_posList ..).mpr ⟨ha, h1⟩, hbdy,
        Or.inl ⟨by omega, rfl, by omega⟩⟩
    · exact ⟨(a - 1, b), (mem_posList ..).mpr ⟨by omega, hb'⟩, hbdy,
        Or.inr (Or.inr (Or.inr ⟨by omega, by omega, rfl⟩))⟩
    · exact ⟨(a + 1, b), (mem_posList ..).mpr ⟨h1, hb'⟩, hbdy,
        Or.inr (Or.inr (Or.inl ⟨by omega, by omega, rfl⟩))⟩

/-- The in-place single-pass edge synthesis computes exactly the two-buffer
snapshot rule: there is no directional bias. -/
theorem edges_eq_snapshot (w h : ℕ) (g : Grid) :
    generateEdges w h g = edgeSnapshot w h g := by
  rw [generateEdges_eq_overlay, overlay_posList_eq_snapshot]

/-! ### Index coverage of the colorization pass -/

theorem mem_flatten_map_range {α : Type} {f : ℕ → List α} {n : ℕ} {t : α} :
    t ∈ ((List.range n).map f).flatten ↔ ∃ k, k < n ∧ t ∈ f k := by
  simp only [List.mem_flatten, List.mem_map, List.mem_range]
  constructor
  · rintro ⟨l, ⟨k, hk, rfl⟩, ht⟩
    exact ⟨k, hk, ht⟩
  · rintro ⟨k, hk, ht⟩
    exact ⟨f k, ⟨k, hk, rfl⟩, ht⟩

theorem nodup_flatten_map_range {f : ℕ → List ℕ} {n : ℕ}
    (h1 : ∀ k, k < n → (f k).Nodup)
    (h2 : ∀ k k', k < k' → k' < n → List.Disjoint (f k) (f k')) :
    ((List.range n).map f).flatten.Nodup := by
  rw [List.nodup_flatten]
  constructor
  · rintro l hl
    rcases List.mem_map.mp hl with ⟨k, hk, rfl⟩
    exact h1 k (List.mem_range.mp hk)
  · rw [List.pairwise_map]
    exact (List.pairwise_lt_range n).imp_of_mem
      (fun ha hb hlt => h2 _ _ hlt (List.mem_range.mp hb))

theorem mem_idx4 {t p : ℕ} : t ∈ idx4 p ↔ p ≤ t ∧ t < p + 4 := by
  simp only [idx4, List.mem_cons, List.not_mem_nil, or_false]
  omega

theorem nodup_idx4 (p : ℕ) : (idx4 p).Nodup := by
  simp [idx4]

theorem colorCell_fst (o : SpriteOptions) (s : ℕ → ℚ) (sinPi : ℚ → ℚ)
    (g : Grid) (isV : Bool) (ulen vlen u v : ℕ) (hue sat : ℚ) (i : ℕ) :
    (colorCell o s sinPi g isV ulen vlen u v hue sat i).1.map Prod.fst =
      idx4 (posIndex isV ulen vlen u v) := by
  simp only [colorCell, posIndex, idx4]
  split_ifs <;> rfl

theorem innerLoop_fst (o : SpriteOptions) (s : ℕ → ℚ) (sinPi : ℚ → ℚ)
    (g : Grid) (isV : Bool) (ulen vlen u : ℕ) (hue sat : ℚ) :
    ∀ (fuel v i : ℕ),
      (innerLoop o s sinPi g isV ulen vlen u hue sat v fuel i).1.map Prod.fst =
        ((List.range fuel).map
          (fun k => idx4 (posIndex isV ulen vlen u (v + k)))).flatten := by
  intro fuel
  induction fuel with
  | zero => intro v i; simp [innerLoop]
  | succ n ih =>
    intro v i
    simp only [innerLoop, List.map_append, colorCell_fst, ih]
    rw [List.range_succ_eq_map]
    simp only [List.map_cons, List.flatten_cons, List.map_map]
    have harg :
        ((fun k => idx4 (posIndex isV ulen vlen u (v + 1 + k))) : ℕ → List ℕ)
          = (fun k => idx4 (posIndex isV ulen vlen u (v + k))) ∘ Nat.succ := by
      funext k
      simp only [Function.comp_apply, Nat.succ_eq_add_one]
      have he : v + 1 + k = v + (k + 1) := by omega
      rw [he]
    rw [← harg]
    simp

theorem outerLoop_fst (o : SpriteOptions) (s : ℕ → ℚ) (sinPi : ℚ → ℚ)
    (g : Grid) (isV : Bool) (ulen vlen : ℕ) (sat : ℚ) :
    ∀ (fuel u : ℕ) (hue : ℚ) (i : ℕ),
      (outerLoop o s sinPi g isV ulen vlen sat u fuel hue i).1.map Prod.fst =
        ((List.range fuel).map
          (fun k => rowIdx isV ulen vlen (u + k))).flatten := by
  intro fuel
  induction fuel with
  | zero => intro u hue i; simp [outerLoop]
  | succ n ih =>
    intro u hue i
    simp only [outerLoop, List.map_append, ih, innerLoop_fst]
    rw [List.range_succ_eq_map]
    simp only [List.map_cons, List.flatten_cons, List.map_map]
    have harg :
        ((fun k => rowIdx isV ulen vlen (u + 1 + k)) : ℕ → List ℕ)
          = (fun k => rowIdx isV ulen vlen (u + k)) ∘ Nat.succ := by
      funext k
      simp only [Function.comp_apply, Nat.succ_eq_add_one]
      have he : u + 1 + k = u + (k + 1) := by omega
      rw [he]
    rw [← harg]
    unfold rowIdx
    simp [Nat.zero_add]

/-- All indices below `4 * ulen * vlen` occur in the pass's index list. -/
theorem mem_allIdx (isV : Bool) (ulen vlen : ℕ) (j : ℕ)
    (hj : j < 4 * (ulen * vlen)) : j ∈ allIdx isV ulen vlen := by
  have hvpos : 0 < vlen := by
    rcases Nat.eq_zero_or_pos vlen with h | h
    · subst h; omega
    · exact h
  have hupos : 0 < ulen := by
    rcases Nat.eq_zero_or_pos ulen with h | h
    · subst h; omega
    · exact h
  have hcell : j / 4 < ulen * vlen := by omega
  unfold allIdx rowIdx
  cases isV with
  | true =>
    refine mem_flatten_map_range.mpr ⟨j / 4 / vlen, ?_, ?_⟩
    · exact Nat.div_lt_of_lt_mul (by rwa [Nat.mul_comm] at hcell)
    · refine mem_flatten_map_range.mpr ⟨j / 4 % vlen, Nat.mod_lt _ hvpos, ?_⟩
      rw [mem_idx4, posIndex]
      have hdm : j / 4 / vlen * vlen + j / 4 % vlen = j / 4 := by
        rw [Nat.mul_comm]
        exact Nat.div_add_mod _ _
      simp only [if_true]
      omega
  | false =>
    refine mem_flatten_map_range.mpr ⟨j / 4 % ulen, Nat.mod_lt _ hupos, ?_⟩
    refine mem_flatten_map_range.mpr ⟨j / 4 / ulen, ?_, ?_⟩
    · exact Nat.div_lt_of_lt_mul hcell
    · rw [mem_idx4, posIndex]
      have hdm : j / 4 / ulen * ulen + j / 4 % ulen = j / 4 := by
        rw [Nat.mul_comm]
        exact Nat.div_add_mod _ _
      simp only [if_false, Bool.false_eq_true]
      omega

/-- Every index occurs at most once: the index list of the pass has no
duplicates, whichever gradient axis was chosen. -/
theorem nodup_allIdx (isV : Bool) (ulen vlen : ℕ) :
    (allIdx isV ulen vlen).Nodup := by
  have hcell : ∀ u v u' v', u < ulen → v < vlen → u' < ulen → v' < vlen →
      (u ≠ u' ∨ v ≠ v') →
      (if isV then (u * vlen + v) else (v * ulen + u)) ≠
        (if isV then (u' * vlen + v') else (v' * ulen + u')) := by
    intro u v u' v' hu hv hu' hv' hne
    cases isV with
    | true =>
      simp only [if_true]
      intro heq
      rcases Nat.lt_trichotomy u u' with hlt | hEq | hlt
      · have : u * vlen + vlen ≤ u' * vlen := by
          have := Nat.mul_le_mul_right vlen (Nat.succ_le_of_lt hlt)
          rwa [Nat.succ_mul] at this
        omega
      · subst hEq
        have : v = v' := by omega
        tauto
      · have : u' * vlen + vlen ≤ u * vlen := by
          have := Nat.mul_le_mul_right vlen (Nat.succ_le_of_lt hlt)
          rwa [Nat.succ_mul] at this
        omega
    | false =>
      simp only [if_false, Bool.false_eq_true]
      intro heq
      rcases Nat.lt_trichotomy v v' with hlt | hEq | hlt
      · have : v * ulen + ulen ≤ v' * ulen := by
          have := Nat.mul_le_mul_right ulen (Nat.succ_le_of_lt hlt)
          rwa [Nat.succ_mul] at this
        omega
      · subst hEq
        have : u = u' := by omega
        tauto
      · have : v' * ulen + ulen ≤ v * ulen := by
          have := Nat.mul_le_mul_right ulen (Nat.succ_le_of_lt hlt)
          rwa [Nat.succ_mul] at this
        omega
  have hpos : ∀ u v u' v', u < ulen → v < vlen → u' < ulen → v' < vlen →
      (u ≠ u' ∨ v ≠ v') →
      List.Disjoint (idx4 (posIndex isV ulen vlen u v))
        (idx4 (posIndex isV ulen vlen u' v')) := by
    intro u v u' v' hu hv hu' hv' hne t ht ht'
    rw [mem_idx4] at ht ht'
    have h1 := hcell u v u' v' hu hv hu' hv' hne
    unfold posIndex at ht ht'
    cases isV with
    | true =>
      simp only [if_true] at ht ht' h1
      omega
    | false =>
      simp only [if_false, Bool.false_eq_true] at ht ht' h1
      omega
  unfold allIdx rowIdx
  refine nodup_flatten_map_range (fun u hu => ?_) (fun u u' huu' hu' => ?_)
  · refine nodup_flatten_map_range (fun v hv => nodup_idx4 _)
      (fun v v' hvv' hv' => ?_)
    exact hpos u v u v' hu (by omega) hu hv' (Or.inr (by omega))
  · intro t ht ht'
    rcases mem_flatten_map_range.mp ht with ⟨v, hv, htv⟩
    rcases mem_flatten_map_range.mp ht' with ⟨v', hv', htv'⟩
    exact hpos u v u' v' (by omega) hv hu' hv' (Or.inl (by omega)) htv htv'

theorem mem_allIdx_lt (isV : Bool) (ulen vlen t : ℕ)
    (ht : t ∈ allIdx isV ulen vlen) : t < 4 * (ulen * vlen) := by
  unfold allIdx rowIdx at ht
  rcases mem_flatten_map_range.mp ht with ⟨u, hu, ht⟩
  rcases mem_flatten_map_range.mp ht with ⟨v, hv, ht⟩
  rw [mem_idx4] at ht
  unfold posIndex at ht
  cases isV with
  | true =>
    simp only [if_true] at ht
    have hb : u * vlen + vlen ≤ ulen * vlen := by
      have := Nat.mul_le_mul_right vlen (Nat.succ_le_of_lt hu)
      rwa [Nat.succ_mul] at this
    omega
  | false =>
    simp only [if_false, Bool.false_eq_true] at ht
    have hb : v * ulen + ulen ≤ vlen * ulen := by
      have := Nat.mul_le_mul_right ulen (Nat.succ_le_of_lt hv)
      rwa [Nat.succ_mul] at this
    have hc : vlen * ulen = ulen * vlen := Nat.mul_comm ..
    omega

theorem foldMax_le (N : ℕ) :
    ∀ (l : List ℕ) (acc : ℕ), acc ≤ N → (∀ t ∈ l, t + 1 ≤ N) →
      l.foldl (fun a j => max a (j + 1)) acc ≤ N := by
  intro l
  induction l with
  | nil => intro acc hacc _; simpa using hacc
  | cons a l ih =>
    intro acc hacc hall
    simp only [List.foldl_cons]
    refine ih _ ?_ (fun t ht => hall t (List.mem_cons_of_mem _ ht))
    have := hall a (List.mem_cons_self a l)
    omega

theorem acc_le_foldMax :
    ∀ (l : List ℕ) (acc : ℕ), acc ≤ l.foldl (fun a j => max a (j + 1)) acc := by
  intro l
  induction l with
  | nil => intro acc; simp
  | cons a l ih =>
    intro acc
    simp only [List.foldl_cons]
    exact le_trans (Nat.le_max_left _ _) (ih _)

theorem le_foldMax :
    ∀ (l : List ℕ) (acc t : ℕ), t ∈ l →
      t + 1 ≤ l.foldl (fun a j => max a (j + 1)) acc := by
  intro l
  induction l with
  | nil => intro acc t ht; cases ht
  | cons a l ih =>
    intro acc t ht
    rcases List.mem_cons.mp ht with rfl | ht
    · simp only [List.foldl_cons]
      exact le_trans (Nat.le_max_right _ _) (acc_le_foldMax _ _)
    · exact ih _ t ht

theorem bufLen_eq_foldMax (l : List (ℕ × ℚ)) :
    bufLen l = (l.map Prod.fst).foldl (fun a j => max a (j + 1)) 0 := by
  unfold bufLen
  rw [List.foldl_map]

/-- The multiset of byte indices stored by `calculateColors` is the index
list of one of the two gradient orientations, over the same cell count. -/
theorem calculateColors_fst (o : SpriteOptions) (s : ℕ → ℚ) (sinPi : ℚ → ℚ)
    (w h : ℕ) (g : Grid) (i : ℕ) :
    ∃ isV ulen vlen, ulen * vlen = w * h ∧
      ((calculateColors o s sinPi w h g i).1).map Prod.fst =
        allIdx isV ulen vlen := by
  simp only [calculateColors]
  by_cases hv : s i > 1/2
  · have hd : (decide (s i > 1/2)) = true := by simpa using hv
    refine ⟨true, h, w, Nat.mul_comm .., ?_⟩
    simp only [hd, if_true]
    rw [outerLoop_fst]
    unfold allIdx
    simp
  · have hd : (decide (s i > 1/2)) = false := by simpa using hv
    refine ⟨false, w, h, rfl, ?_⟩
    simp only [hd, if_false, Bool.false_eq_true]
    rw [outerLoop_fst]
    unfold allIdx
    simp

theorem generate_events_fst (m : Mask) (o : SpriteOptions) (s : ℕ → ℚ)
    (sinPi : ℚ → ℚ) :
    ∃ isV ulen vlen, ulen * vlen = effW m * effH m ∧
      (generate m o s sinPi).events.map Prod.fst = allIdx isV ulen vlen :=
  calculateColors_fst o s sinPi (effW m) (effH m) _ _

/-! ### Closed form of the non-colored colorization pass -/

theorem colorCell_flat (o : SpriteOptions) (s : ℕ → ℚ) (sinPi : ℚ → ℚ)
    (g : Grid) (isV : Bool) (ulen vlen u v : ℕ) (hue sat : ℚ) (i : ℕ)
    (hc : o.colored = false) :
    colorCell o s sinPi g isV ulen vlen u v hue sat i =
      (cellEvents o g isV ulen vlen u v, i) := by
  simp only [colorCell, cellEvents, flatQuad, posIndex, hc,
    Bool.false_eq_true, if_false]
  split_ifs <;> rfl

theorem innerLoop_flat (o : SpriteOptions) (s : ℕ → ℚ) (sinPi : ℚ → ℚ)
    (g : Grid) (isV : Bool) (ulen vlen u : ℕ) (hue sat : ℚ)
    (hc : o.colored = false) :
    ∀ (fuel v i : ℕ),
      innerLoop o s sinPi g isV ulen vlen u hue sat v fuel i =
        (((List.range fuel).map
          (fun k => cellEvents o g isV ulen vlen u (v + k))).flatten, i) := by
  have hcc : ∀ v' i', colorCell o s sinPi g isV ulen vlen u v' hue sat i' =
      (cellEvents o g isV ulen vlen u v', i') :=
    fun v' i' => colorCell_flat o s sinPi g isV ulen vlen u v' hue sat i' hc
  intro fuel
  induction fuel with
  | zero => intro v i; simp [innerLoop]
  | succ n ih =>
    intro v i
    simp only [innerLoop, hcc, ih]
    rw [List.range_succ_eq_map]
    simp only [List.map_cons, List.flatten_cons, List.map_map]
    have harg :
        ((fun k => cellEvents o g isV ulen vlen u (v + 1 + k)) :
            ℕ → List (ℕ × ℚ))
          = (fun k => cellEvents o g isV ulen vlen u (v + k)) ∘ Nat.succ := by
      funext k
      simp only [Function.comp_apply, Nat.succ_eq_add_one]
      have he : v + 1 + k = v + (k + 1) := by omega
      rw [he]
    rw [← harg]
    simp

theorem outerLoop_flat (o : SpriteOptions) (s : ℕ → ℚ) (sinPi : ℚ → ℚ)
    (g : Grid) (isV : Bool) (ulen vlen : ℕ) (sat : ℚ)
    (hc : o.colored = false) :
    ∀ (fuel u : ℕ) (hue : ℚ) (i : ℕ),
      (outerLoop o s sinPi g isV ulen vlen sat u fuel hue i).1 =
        ((List.range fuel).map
          (fun k => rowEvents o g isV ulen vlen (u + k))).flatten := by
  intro fuel
  induction fuel with
  | zero => intro u hue i; simp [outerLoop]
  | succ n ih =>
    intro u hue i
    simp only [outerLoop, innerLoop_flat o s sinPi g isV ulen vlen, ih, hc]
    rw [List.range_succ_eq_map]
    simp only [List.map_cons, List.flatten_cons, List.map_map]
    have harg :
        ((fun k => rowEvents o g isV ulen vlen (u + 1 + k)) :
            ℕ → List (ℕ × ℚ))
          = (fun k => rowEvents o g isV ulen vlen (u + k)) ∘ Nat.succ := by
      funext k
      simp only [Function.comp_apply, Nat.succ_eq_add_one]
      have he : u + 1 + k = u + (k + 1) := by omega
      rw [he]
    rw [← harg]
    unfold rowEvents
    simp [Nat.zero_add]

/-- With `colored = false` the whole pass stores exactly the closed-form
event list of one of the two orientations. -/
theorem calculateColors_flat_cases (o : SpriteOptions) (s : ℕ → ℚ)
    (sinPi : ℚ → ℚ) (w h : ℕ) (g : Grid) (i : ℕ) (hc : o.colored = false) :
    (calculateColors o s sinPi w h g i).1 = allEvents o g true h w ∨
    (calculateColors o s sinPi w h g i).1 = allEvents o g false w h := by
  simp only [calculateColors]
  by_cases hv : s i > 1/2
  · have hd : (decide (s i > 1/2)) = true := by simpa using hv
    left
    simp only [hd, if_true]
    rw [outerLoop_flat o s sinPi g true h w _ hc]
    unfold allEvents
    simp
  · have hd : (decide (s i > 1/2)) = false := by simpa using hv
    right
    simp only [hd, if_false, Bool.false_eq_true]
    rw [outerLoop_flat o s sinPi g false w h _ hc]
    unfold allEvents
    simp

theorem cellEvents_fst (o : SpriteOptions) (g : Grid) (isV : Bool)
    (ulen vlen u v : ℕ) :
    (cellEvents o g isV ulen vlen u v).map Prod.fst =
      idx4 (posIndex isV ulen vlen u v) := rfl

theorem allEvents_fst (o : SpriteOptions) (g : Grid) (isV : Bool)
    (ulen vlen : ℕ) :
    (allEvents o g isV ulen vlen).map Prod.fst = allIdx isV ulen vlen := by
  unfold allEvents allIdx rowEvents rowIdx
  rw [List.map_flatten, List.map_map]
  have hf : (List.map Prod.fst ∘
        fun u => ((List.range vlen).map
          (fun v => cellEvents o g isV ulen vlen u v)).flatten)
      = fun u => ((List.range vlen).map
          (fun v => idx4 (posIndex isV ulen vlen u v))).flatten := by
    funext u
    simp only [Function.comp_apply]
    rw [List.map_flatten, List.map_map]
    have hg : (List.map Prod.fst ∘ fun v => cellEvents o g isV ulen vlen u v)
        = fun v => idx4 (posIndex isV ulen vlen u v) :=
      funext (fun v => cellEvents_fst o g isV ulen vlen u v)
    rw [hg]
  rw [hf]

theorem writeLookup_skip (j : ℕ) :
    ∀ (l : List (ℕ × ℚ)) (acc : ℚ), j ∉ l.map Prod.fst →
      l.foldl (fun acc e => if e.1 = j then e.2 else acc) acc = acc := by
  intro l
  induction l with
  | nil => intro acc _; rfl
  | cons e l ih =>
    intro acc hj
    simp only [List.map_cons, List.mem_cons, not_or] at hj
    simp only [List.foldl_cons]
    rw [if_neg (fun he : e.1 = j => hj.1 he.symm)]
    exact ih acc hj.2

theorem writeLookup_go (j : ℕ) (v' : ℚ) :
    ∀ (l : List (ℕ × ℚ)) (acc : ℚ), (l.map Prod.fst).Nodup → (j, v') ∈ l →
      l.foldl (fun acc e => if e.1 = j then e.2 else acc) acc = v' := by
  intro l
  induction l with
  | nil => intro acc _ hm; cases hm
  | cons e l ih =>
    intro acc hn hm
    simp only [List.map_cons, List.nodup_cons] at hn
    simp only [List.foldl_cons]
    rcases List.mem_cons.mp hm with heq | hm'
    · cases heq
      rw [if_pos rfl]
      exact writeLookup_skip j l v' hn.1
    · have hjin : j ∈ l.map Prod.fst := List.mem_map.mpr ⟨(j, v'), hm', rfl⟩
      rw [if_neg (fun he : e.1 = j => hn.1 (by rw [he]; exact hjin))]
      exact ih _ hn.2 hm'

/-- With no duplicate indices, the JS last-write-wins read returns the
value stored at the index. -/
theorem writeLookup_eq (l : List (ℕ × ℚ)) (j : ℕ) (v' : ℚ)
    (hn : (l.map Prod.fst).Nodup) (hm : (j, v') ∈ l) :
    writeLookup l j = v' := by
  unfold writeLookup
  exact writeLookup_go j v' l 0 hn hm

theorem pixQuad_allEvents_vert (o : SpriteOptions) (g : Grid) (w h x y : ℕ)
    (hx : x < w) (hy : y < h) :
    pixQuad (allEvents o g true h w) w x y = flatQuad o (g x y) := by
  have hn : ((allEvents o g true h w).map Prod.fst).Nodup := by
    rw [allEvents_fst]; exact nodup_allIdx ..
  have hmem : ∀ e : ℕ × ℚ, e ∈ cellEvents o g true h w y x →
      e ∈ allEvents o g true h w := by
    intro e he
    unfold allEvents rowEvents
    exact mem_flatten_map_range.mpr ⟨y, hy, mem_flatten_map_range.mpr ⟨x, hx, he⟩⟩
  have h0 : ((y * w + x) * 4, (flatQuad o (g x y)).1) ∈
      allEvents o g true h w := hmem _ (List.Mem.head _)
  have h1 : ((y * w + x) * 4 + 1, (flatQuad o (g x y)).2.1) ∈
      allEvents o g true h w := hmem _ (List.Mem.tail _ (List.Mem.head _))
  have h2 : ((y * w + x) * 4 + 2, (flatQuad o (g x y)).2.2.1) ∈
      allEvents o g true h w :=
    hmem _ (List.Mem.tail _ (List.Mem.tail _ (List.Mem.head _)))
  have h3 : ((y * w + x) * 4 + 3, (flatQuad o (g x y)).2.2.2) ∈
      allEvents o g true h w :=
    hmem _ (List.Mem.tail _ (List.Mem.tail _ (List.Mem.tail _
      (List.Mem.head _))))
  unfold pixQuad
  rw [writeLookup_eq _ _ _ hn h0, writeLookup_eq _ _ _ hn h1,
    writeLookup_eq _ _ _ hn h2, writeLookup_eq _ _ _ hn h3]

theorem pixQuad_allEvents_horiz (o : SpriteOptions) (g : Grid) (w h x y : ℕ)
    (hx : x < w) (hy : y < h) :
    pixQuad (allEvents o g false w h) w x y = flatQuad o (g x y) := by
  have hn : ((allEvents o g false w h).map Prod.fst).Nodup := by
    rw [allEvents_fst]; exact nodup_allIdx ..
  have hmem : ∀ e : ℕ × ℚ, e ∈ cellEvents o g false w h x y →
      e ∈ allEvents o g false w h := by
    intro e he
    unfold allEvents rowEvents
    exact mem_flatten_map_range.mpr ⟨x, hx, mem_flatten_map_range.mpr ⟨y, hy, he⟩⟩
  have h0 : ((y * w + x) * 4, (flatQuad o (g x y)).1) ∈
      allEvents o g false w h := hmem _ (List.Mem.head _)
  have h1 : ((y * w + x) * 4 + 1, (flatQuad o (g x y)).2.1) ∈
      allEvents o g false w h := hmem _ (List.Mem.tail _ (List.Mem.head _))
  have h2 : ((y * w + x) * 4 + 2, (flatQuad o (g x y)).2.2.1) ∈
      allEvents o g false w h :=
    hmem _ (List.Mem.tail _ (List.Mem.tail _ (List.Mem.head _)))
  have h3 : ((y * w + x) * 4 + 3, (flatQuad o (g x y)).2.2.2) ∈
      allEvents o g false w h :=
    hmem _ (List.Mem.tail _ (List.Mem.tail _ (List.Mem.tail _
      (List.Mem.head _))))
  unfold pixQuad
  rw [writeLookup_eq _ _ _ hn h0, writeLookup_eq _ _ _ hn h1,
    writeLookup_eq _ _ _ hn h2, writeLookup_eq _ _ _ hn h3]

/-- With `colored = false` the pixel of cell `(x, y)` is the closed-form
quadruple of that cell's structural code, whichever gradient axis was
drawn. -/
theorem calculateColors_pixQuad_flat (o : SpriteOptions) (s : ℕ → ℚ)
    (sinPi : ℚ → ℚ) (w h : ℕ) (g : Grid) (i : ℕ) (hc : o.colored = false)
    (x y : ℕ) (hx : x < w) (hy : y < h) :
    pixQuad (calculateColors o s sinPi w h g i).1 w x y =
      flatQuad o (g x y) := by
  rcases calculateColors_flat_cases o s sinPi w h g i hc with hE | hE <;>
    rw [hE]
  · exact pixQuad_allEvents_vert o g w h x y hx hy
  · exact pixQuad_allEvents_horiz o g w h x y hx hy

theorem generate_pixQuad_flat (m : Mask) (o : SpriteOptions) (s : ℕ → ℚ)
    (sinPi : ℚ → ℚ) (hc : o.colored = false) (x y : ℕ)
    (hx : x < effW m) (hy : y < effH m) :
    pixQuad (generate m o s sinPi).events (effW m) x y =
      flatQuad o ((generate m o s sinPi).grid x y) :=
  calculateColors_pixQuad_flat o s sinPi (effW m) (effH m) _ _ hc x y hx hy

/-! ### Claims C5 and C8: properties of edge synthesis -/

/-- C5, counterexample to the claim as stated: there is no structural grid on
which the in-place single-pass edge synthesis differs from applying the same
neighbour rule against a snapshot of the grid taken before the pass. -/
theorem c5_no_grid_distinguishes_inplace_from_snapshot :
    ¬ ∃ (w h : ℕ) (g : Grid), generateEdges w h g ≠ edgeSnapshot w h g := by
  rintro ⟨w, h, g, hne⟩
  exact hne (edges_eq_snapshot w h g)

/-- C5, amended: for every structural grid the in-place row-major pass
produces exactly the grid of the two-buffer snapshot rule — border writes
only ever turn `Empty` cells into `AlwaysBorder`, which the pass thereafter
skips, and body cells never change during the pass, so the in-place
mutation introduces no directional bias. -/
theorem c5_inplace_pass_equals_snapshot_pass (w h : ℕ) (g : Grid) :
    generateEdges w h g = edgeSnapshot w h g :=
  edges_eq_snapshot w h g

/-- C8: on a grid whose in-range cells hold structural codes, every cell
that is `AlwaysBorder` after the edge pass but was `Empty` immediately
before it is 4-adjacent to a cell that held `RandomlyEmptyBody`,
`RandomlyBorderBody` or `AlwaysBorder` at the start of the pass. -/
theorem c8_edge_containment (w h : ℕ) (g : Grid) (x y : ℕ)
    (hwf : ∀ a b, a < w → b < h →
      g a b = -1 ∨ g a b = 0 ∨ g a b = 1 ∨ g a b = 2)
    (hx : x < w) (hy : y < h)
    (hafter : generateEdges w h g x y = -1) (hbefore : g x y = 0) :
    ∃ a b, ((a = x ∧ b + 1 = y) ∨ (a = x ∧ b = y + 1) ∨
            (a + 1 = x ∧ b = y) ∨ (a = x + 1 ∧ b = y)) ∧
      (g a b = 1 ∨ g a b = 2 ∨ g a b = -1) := by
  rw [edges_eq_snapshot] at hafter
  unfold edgeSnapshot at hafter
  split_ifs at hafter with hc
  · obtain ⟨-, -, -, hnb⟩ := hc
    rcases hnb with ⟨h1, hbdy⟩ | ⟨h1, hbdy⟩ | ⟨h1, hbdy⟩ | ⟨h1, hbdy⟩
    · refine ⟨x, y - 1, Or.inl ⟨rfl, by omega⟩, ?_⟩
      have hv := hwf x (y - 1) hx (by omega)
      unfold isBody at hbdy
      tauto
    · refine ⟨x, y + 1, Or.inr (Or.inl ⟨rfl, rfl⟩), ?_⟩
      have hv := hwf x (y + 1) hx h1
      unfold isBody at hbdy
      tauto
    · refine ⟨x - 1, y, Or.inr (Or.inr (Or.inl ⟨by omega, rfl⟩)), ?_⟩
      have hv := hwf (x - 1) y (by omega) hy
      unfold isBody at hbdy
      tauto
    · refine ⟨x + 1, y, Or.inr (Or.inr (Or.inr ⟨rfl, rfl⟩)), ?_⟩
      have hv := hwf (x + 1) y h1 hy
      unfold isBody at hbdy
      tauto
  · rw [hbefore] at hafter
    exact absurd hafter (by decide)

theorem c8_edge_containment_witness :
    ∃ a b, ((a = 0 ∧ b + 1 = 0) ∨ (a = 0 ∧ b = 0 + 1) ∨
            (a + 1 = 0 ∧ b = 0) ∨ (a = 0 + 1 ∧ b = 0)) ∧
      (c8Grid a b = 1 ∨ c8Grid a b = 2 ∨ c8Grid a b = -1) :=
  c8_edge_containment 1 3 c8Grid 0 0
    (by intro a b ha hb; interval_cases b <;> simp [c8Grid])
    (by decide) (by decide) (by decide) (by decide)

/-! ### Characterization of the mirror passes -/

theorem mOverlayX_nil (w : ℕ) (g : Grid) : mOverlayX w g [] = g := by
  funext x y
  simp [mOverlayX]

theorem mOverlayY_nil (h : ℕ) (g : Grid) : mOverlayY h g [] = g := by
  funext x y
  simp [mOverlayY]

theorem mirrorX_step_overlay (w : ℕ) (g : Grid) (done : List (ℕ × ℕ))
    (p : ℕ × ℕ) (hp : p.1 < w / 2) (hdone : ∀ q ∈ done, q.1 < w / 2) :
    setG (mOverlayX w g done) (w - p.1 - 1) p.2
        ((mOverlayX w g done) p.1 p.2) =
      mOverlayX w g (done ++ [p]) := by
  have hread : (mOverlayX w g done) p.1 p.2 = g p.1 p.2 := by
    unfold mOverlayX
    rw [if_neg]
    rintro ⟨q, hq, hx, -⟩
    have := hdone q hq
    omega
  rw [hread]
  funext x y
  unfold setG mOverlayX
  by_cases hxy : x = w - p.1 - 1 ∧ y = p.2
  · obtain ⟨rfl, rfl⟩ := hxy
    rw [if_pos ⟨rfl, rfl⟩,
      if_pos ⟨p, List.mem_append_right _ (List.mem_singleton_self p), rfl, rfl⟩]
    have harg : w - (w - p.1 - 1) - 1 = p.1 := by omega
    rw [harg]
  · rw [if_neg hxy]
    have hiff : (∃ q ∈ done ++ [p], x = w - q.1 - 1 ∧ y = q.2) ↔
        (∃ q ∈ done, x = w - q.1 - 1 ∧ y = q.2) := by
      constructor
      · rintro ⟨q, hq, hxq, hyq⟩
        rcases List.mem_append.mp hq with hq | hq
        · exact ⟨q, hq, hxq, hyq⟩
        · rw [List.mem_singleton.mp hq] at hxq hyq
          exact absurd ⟨hxq, hyq⟩ hxy
      · rintro ⟨q, hq, hxq, hyq⟩
        exact ⟨q, List.mem_append_left _ hq, hxq, hyq⟩
    by_cases hrec : ∃ q ∈ done, x = w - q.1 - 1 ∧ y = q.2
    · rw [if_pos hrec, if_pos (hiff.mpr hrec)]
    · rw [if_neg hrec, if_neg (fun hh => hrec (hiff.mp hh))]

theorem mirrorY_step_overlay (h : ℕ) (g : Grid) (done : List (ℕ × ℕ))
    (p : ℕ × ℕ) (hp : p.2 < h / 2) (hdone : ∀ q ∈ done, q.2 < h / 2) :
    setG (mOverlayY h g done) p.1 (h - p.2 - 1)
        ((mOverlayY h g done) p.1 p.2) =
      mOverlayY h g (done ++ [p]) := by
  have hread : (mOverlayY h g done) p.1 p.2 = g p.1 p.2 := by
    unfold mOverlayY
    rw [if_neg]
    rintro ⟨q, hq, -, hy⟩
    have := hdone q hq
    omega
  rw [hread]
  funext x y
  unfold setG mOverlayY
  by_cases hxy : x = p.1 ∧ y = h - p.2 - 1
  · obtain ⟨rfl, rfl⟩ := hxy
    rw [if_pos ⟨rfl, rfl⟩,
      if_pos ⟨p, List.mem_append_right _ (List.mem_singleton_self p), rfl, rfl⟩]
    have harg : h - (h - p.2 - 1) - 1 = p.2 := by omega
    rw [harg]
  · rw [if_neg hxy]
    have hiff : (∃ q ∈ done ++ [p], x = q.1 ∧ y = h - q.2 - 1) ↔
        (∃ q ∈ done, x = q.1 ∧ y = h - q.2 - 1) := by
      constructor
      · rintro ⟨q, hq, hxq, hyq⟩
        rcases List.mem_append.mp hq with hq | hq
        · exact ⟨q, hq, hxq, hyq⟩
        · rw [List.mem_singleton.mp hq] at hxq hyq
          exact absurd ⟨hxq, hyq⟩ hxy
      · rintro ⟨q, hq, hxq, hyq⟩
        exact ⟨q, List.mem_append_left _ hq, hxq, hyq⟩
    by_cases hrec : ∃ q ∈ done, x = q.1 ∧ y = h - q.2 - 1
    · rw [if_pos hrec, if_pos (hiff.mpr hrec)]
    · rw [if_neg hrec, if_neg (fun hh => hrec (hiff.mp hh))]

theorem mirrorX_fold (w : ℕ) (g : Grid) :
    ∀ (rest done : List (ℕ × ℕ)), (∀ q ∈ done, q.1 < w / 2) →
      (∀ q ∈ rest, q.1 < w / 2) →
      rest.foldl (fun g' p => setG g' (w - p.1 - 1) p.2 (g' p.1 p.2))
          (mOverlayX w g done) =
        mOverlayX w g (done ++ rest) := by
  intro rest
  induction rest with
  | nil => intro done _ _; simp
  | cons p rest ih =>
    intro done hdone hrest
    simp only [List.foldl_cons]
    rw [mirrorX_step_overlay w g done p (hrest p (List.mem_cons_self ..))
      hdone]
    rw [ih (done ++ [p]) ?_ ?_]
    · simp
    · intro q hq
      rcases List.mem_append.mp hq with hh | hh
      · exact hdone q hh
      · rw [List.mem_singleton.mp hh]
        exact hrest p (List.mem_cons_self ..)
    · intro q hq
      exact hrest q (List.mem_cons_of_mem _ hq)

theorem mirrorY_fold (h : ℕ) (g : Grid) :
    ∀ (rest done : List (ℕ × ℕ)), (∀ q ∈ done, q.2 < h / 2) →
      (∀ q ∈ rest, q.2 < h / 2) →
      rest.foldl (fun g' p => setG g' p.1 (h - p.2 - 1) (g' p.1 p.2))
          (mOverlayY h g done) =
        mOverlayY h g (done ++ rest) := by
  intro rest
  induction rest with
  | nil => intro done _ _; simp
  | cons p rest ih =>
    intro done hdone hrest
    simp only [List.foldl_cons]
    rw [mirrorY_step_overlay h g done p (hrest p (List.mem_cons_self ..))
      hdone]
    rw [ih (done ++ [p]) ?_ ?_]
    · simp
    · intro q hq
      rcases List.mem_append.mp hq with hh | hh
      · exact hdone q hh
      · rw [List.mem_singleton.mp hh]
        exact hrest p (List.mem_cons_self ..)
    · intro q hq
      exact hrest q (List.mem_cons_of_mem _ hq)

/-- The `mirrorX` pass overwrites every in-range cell of the right
(post-midpoint) half with its horizontal mirror image and leaves every
other cell unchanged. -/
theorem mirrorXPass_char (w h : ℕ) (g : Grid) :
    mirrorXPass w h g = fun x y =>
      if w - w / 2 ≤ x ∧ x < w ∧ y < h then g (w - x - 1) y else g x y := by
  unfold mirrorXPass
  have hfold := mirrorX_fold w g (posList (w / 2) h) [] (by simp)
    (fun q hq => ((mem_posList (w / 2) h q.1 q.2).mp hq).1)
  rw [mOverlayX_nil, List.nil_append] at hfold
  rw [hfold]
  funext x y
  unfold mOverlayX
  have hcond : (∃ p ∈ posList (w / 2) h, x = w - p.1 - 1 ∧ y = p.2) ↔
      (w - w / 2 ≤ x ∧ x < w ∧ y < h) := by
    constructor
    · rintro ⟨p, hp, rfl, rfl⟩
      obtain ⟨h1, h2⟩ := (mem_posList (w / 2) h p.1 p.2).mp hp
      omega
    · rintro ⟨h1, h2, h3⟩
      exact ⟨(w - x - 1, y), (mem_posList ..).mpr ⟨by omega, h3⟩, by omega, rfl⟩
  rw [if_congr hcond rfl rfl]

/-- The `mirrorY` pass overwrites every in-range cell of the bottom
(post-midpoint) half with its vertical mirror image and leaves every
other cell unchanged. -/
theorem mirrorYPass_char (w h : ℕ) (g : Grid) :
    mirrorYPass w h g = fun x y =>
      if h - h / 2 ≤ y ∧ y < h ∧ x < w then g x (h - y - 1) else g x y := by
  unfold mirrorYPass
  have hfold := mirrorY_fold h g (posList w (h / 2)) [] (by simp)
    (fun q hq => ((mem_posList w (h / 2) q.1 q.2).mp hq).2)
  rw [mOverlayY_nil, List.nil_append] at hfold
  rw [hfold]
  funext x y
  unfold mOverlayY
  have hcond : (∃ p ∈ posList w (h / 2), x = p.1 ∧ y = h - p.2 - 1) ↔
      (h - h / 2 ≤ y ∧ y < h ∧ x < w) := by
    constructor
    · rintro ⟨p, hp, rfl, rfl⟩
      obtain ⟨h1, h2⟩ := (mem_posList w (h / 2) p.1 p.2).mp hp
      omega
    · rintro ⟨h1, h2, h3⟩
      exact ⟨(x, h - y - 1), (mem_posList ..).mpr ⟨h3, by omega⟩, rfl, by omega⟩
  rw [if_congr hcond rfl rfl]

theorem mirrorXPass_symmX (w h : ℕ) (g : Grid) :
    symmX w h (mirrorXPass w h g) := by
  intro x y hx hy
  simp only [mirrorXPass_char]
  by_cases h1 : w - w / 2 ≤ w - 1 - x ∧ w - 1 - x < w ∧ y < h <;>
    by_cases h2 : w - w / 2 ≤ x ∧ x < w ∧ y < h
  · exfalso
    omega
  · rw [if_pos h1, if_neg h2]
    have harg : w - (w - 1 - x) - 1 = x := by omega
    rw [harg]
  · rw [if_neg h1, if_pos h2]
    have harg : w - 1 - x = w - x - 1 := by omega
    rw [harg]
  · rw [if_neg h1, if_neg h2]
    have harg : w - 1 - x = x := by omega
    rw [harg]

theorem mirrorYPass_symmY (w h : ℕ) (g : Grid) :
    symmY w h (mirrorYPass w h g) := by
  intro x y hx hy
  simp only [mirrorYPass_char]
  by_cases h1 : h - h / 2 ≤ h - 1 - y ∧ h - 1 - y < h ∧ x < w <;>
    by_cases h2 : h - h / 2 ≤ y ∧ y < h ∧ x < w
  · exfalso
    omega
  · rw [if_pos h1, if_neg h2]
    have harg : h - (h - 1 - y) - 1 = y := by omega
    rw [harg]
  · rw [if_neg h1, if_pos h2]
    have harg : h - 1 - y = h - y - 1 := by omega
    rw [harg]
  · rw [if_neg h1, if_neg h2]
    have harg : h - 1 - y = y := by omega
    rw [harg]

theorem mirrorYPass_preserves_symmX (w h : ℕ) (g : Grid)
    (hs : symmX w h g) : symmX w h (mirrorYPass w h g) := by
  intro x y hx hy
  simp only [mirrorYPass_char]
  by_cases hc : h - h / 2 ≤ y ∧ y < h
  · rw [if_pos ⟨hc.1, hc.2, by omega⟩, if_pos ⟨hc.1, hc.2, hx⟩]
    exact hs x (h - y - 1) hx (by omega)
  · rw [if_neg (fun hh => hc ⟨hh.1, hh.2.1⟩),
      if_neg (fun hh => hc ⟨hh.1, hh.2.1⟩)]
    exact hs x y hx hy

theorem edgeSnapshot_preserves_symmX (w h : ℕ) (g : Grid)
    (hs : symmX w h g) : symmX w h (edgeSnapshot w h g) := by
  intro x y hx hy
  unfold edgeSnapshot
  have hxw : w - 1 - x < w := by omega
  have hgc : g (w - 1 - x) y = g x y := hs x y hx hy
  have hup : 1 ≤ y → g (w - 1 - x) (y - 1) = g x (y - 1) :=
    fun h1 => hs x (y - 1) hx (by omega)
  have hdn : y + 1 < h → g (w - 1 - x) (y + 1) = g x (y + 1) :=
    fun h1 => hs x (y + 1) hx h1
  have hlf : 1 ≤ w - 1 - x → g (w - 1 - x - 1) y = g (x + 1) y := by
    intro h1
    have hx1 : x + 1 < w := by omega
    have he : w - 1 - x - 1 = w - 1 - (x + 1) := by omega
    rw [he]
    exact hs (x + 1) y hx1 hy
  have hrt : w - 1 - x + 1 < w → g (w - 1 - x + 1) y = g (x - 1) y := by
    intro h1
    have hx1 : 1 ≤ x := by omega
    have he : w - 1 - x + 1 = w - 1 - (x - 1) := by omega
    rw [he]
    exact hs (x - 1) y (by omega) hy
  by_cases hC : x < w ∧ y < h ∧ g x y = 0 ∧
      ((1 ≤ y ∧ isBody (g x (y - 1))) ∨ (y + 1 < h ∧ isBody (g x (y + 1))) ∨
       (1 ≤ x ∧ isBody (g (x - 1) y)) ∨ (x + 1 < w ∧ isBody (g (x + 1) y)))
  · have hC' : w - 1 - x < w ∧ y < h ∧ g (w - 1 - x) y = 0 ∧
        ((1 ≤ y ∧ isBody (g (w - 1 - x) (y - 1))) ∨
         (y + 1 < h ∧ isBody (g (w - 1 - x) (y + 1))) ∨
         (1 ≤ w - 1 - x ∧ isBody (g (w - 1 - x - 1) y)) ∨
         (w - 1 - x + 1 < w ∧ isBody (g (w - 1 - x + 1) y))) := by
      obtain ⟨-, -, hg0, hnb⟩ := hC
      refine ⟨hxw, hy, by rw [hgc]; exact hg0, ?_⟩
      rcases hnb with ⟨h1, hb⟩ | ⟨h1, hb⟩ | ⟨h1, hb⟩ | ⟨h1, hb⟩
      · exact Or.inl ⟨h1, by rw [hup h1]; exact hb⟩
      · exact Or.inr (Or.inl ⟨h1, by rw [hdn h1]; exact hb⟩)
      · have hg : w - 1 - x + 1 < w := by omega
        exact Or.inr (Or.inr (Or.inr ⟨hg, by rw [hrt hg]; exact hb⟩))
      · have hg : 1 ≤ w - 1 - x := by omega
        exact Or.inr (Or.inr (Or.inl ⟨hg, by rw [hlf hg]; exact hb⟩))
    rw [if_pos hC', if_pos hC]
  · have hC' : ¬(w - 1 - x < w ∧ y < h ∧ g (w - 1 - x) y = 0 ∧
        ((1 ≤ y ∧ isBody (g (w - 1 - x) (y - 1))) ∨
         (y + 1 < h ∧ isBody (g (w - 1 - x) (y + 1))) ∨
         (1 ≤ w - 1 - x ∧ isBody (g (w - 1 - x - 1) y)) ∨
         (w - 1 - x + 1 < w ∧ isBody (g (w - 1 - x + 1) y)))) := by
      rintro ⟨-, -, hg0, hnb⟩
      apply hC
      refine ⟨hx, hy, by rw [← hgc]; exact hg0, ?_⟩
      rcases hnb with ⟨h1, hb⟩ | ⟨h1, hb⟩ | ⟨h1, hb⟩ | ⟨h1, hb⟩
      · exact Or.inl ⟨h1, by rw [← hup h1]; exact hb⟩
      · exact Or.inr (Or.inl ⟨h1, by rw [← hdn h1]; exact hb⟩)
      · have hx1 : x + 1 < w := by omega
        exact Or.inr (Or.inr (Or.inr ⟨hx1, by rw [← hlf h1]; exact hb⟩))
      · have hx1 : 1 ≤ x := by omega
        exact Or.inr (Or.inr (Or.inl ⟨hx1, by rw [← hrt h1]; exact hb⟩))
    rw [if_neg hC', if_neg hC]
    exact hgc

theorem edgeSnapshot_preserves_symmY (w h : ℕ) (g : Grid)
    (hs : symmY w h g) : symmY w h (edgeSnapshot w h g) := by
  intro x y hx hy
  unfold edgeSnapshot
  have hyh : h - 1 - y < h := by omega
  have hgc : g x (h - 1 - y) = g x y := hs x y hx hy
  have hlf : 1 ≤ x → g (x - 1) (h - 1 - y) = g (x - 1) y :=
    fun h1 => hs (x - 1) y (by omega) hy
  have hrt : x + 1 < w → g (x + 1) (h - 1 - y) = g (x + 1) y :=
    fun h1 => hs (x + 1) y h1 hy
  have hup : 1 ≤ h - 1 - y → g x (h - 1 - y - 1) = g x (y + 1) := by
    intro h1
    have hy1 : y + 1 < h := by omega
    have he : h - 1 - y - 1 = h - 1 - (y + 1) := by omega
    rw [he]
    exact hs x (y + 1) hx hy1
  have hdn : h - 1 - y + 1 < h → g x (h - 1 - y + 1) = g x (y - 1) := by
    intro h1
    have hy1 : 1 ≤ y := by omega
    have he : h - 1 - y + 1 = h - 1 - (y - 1) := by omega
    rw [he]
    exact hs x (y - 1) hx (by omega)
  by_cases hC : x < w ∧ y < h ∧ g x y = 0 ∧
      ((1 ≤ y ∧ isBody (g x (y - 1))) ∨ (y + 1 < h ∧ isBody (g x (y + 1))) ∨
       (1 ≤ x ∧ isBody (g (x - 1) y)) ∨ (x + 1 < w ∧ isBody (g (x + 1) y)))
  · have hC' : x < w ∧ h - 1 - y < h ∧ g x (h - 1 - y) = 0 ∧
        ((1 ≤ h - 1 - y ∧ isBody (g x (h - 1 - y - 1))) ∨
         (h - 1 - y + 1 < h ∧ isBody (g x (h - 1 - y + 1))) ∨
         (1 ≤ x ∧ isBody (g (x - 1) (h - 1 - y))) ∨
         (x + 1 < w ∧ isBody (g (x + 1) (h - 1 - y)))) := by
      obtain ⟨-, -, hg0, hnb⟩ := hC
      refine ⟨hx, hyh, by rw [hgc]; exact hg0, ?_⟩
      rcases hnb with ⟨h1, hb⟩ | ⟨h1, hb⟩ | ⟨h1, hb⟩ | ⟨h1, hb⟩
      · have hg : h - 1 - y + 1 < h := by omega
        exact Or.inr (Or.inl ⟨hg, by rw [hdn hg]; exact hb⟩)
      · have hg : 1 ≤ h - 1 - y := by omega
        exact Or.inl ⟨hg, by rw [hup hg]; exact hb⟩
      · exact Or.inr (Or.inr (Or.inl ⟨h1, by rw [hlf h1]; exact hb⟩))
      · exact Or.inr (Or.inr (Or.inr ⟨h1, by rw [hrt h1]; exact hb⟩))
    rw [if_pos hC', if_pos hC]
  · have hC' : ¬(x < w ∧ h - 1 - y < h ∧ g x (h - 1 - y) = 0 ∧
        ((1 ≤ h - 1 - y ∧ isBody (g x (h - 1 - y - 1))) ∨
         (h - 1 - y + 1 < h ∧ isBody (g x (h - 1 - y + 1))) ∨
         (1 ≤ x ∧ isBody (g (x - 1) (h - 1 - y))) ∨
         (x + 1 < w ∧ isBody (g (x + 1) (h - 1 - y))))) := by
      rintro ⟨-, -, hg0, hnb⟩
      apply hC
      refine ⟨hx, hy, by rw [← hgc]; exact hg0, ?_⟩
      rcases hnb with ⟨h1, hb⟩ | ⟨h1, hb⟩ | ⟨h1, hb⟩ | ⟨h1, hb⟩
      · have hy1 : y + 1 < h := by omega
        exact Or.inr (Or.inl ⟨hy1, by rw [← hup h1]; exact hb⟩)
      · have hy1 : 1 ≤ y := by omega
        exact Or.inl ⟨hy1, by rw [← hdn h1]; exact hb⟩
      · exact Or.inr (Or.inr (Or.inl ⟨h1, by rw [← hlf h1]; exact hb⟩))
      · exact Or.inr (Or.inr (Or.inr ⟨h1, by rw [← hrt h1]; exact hb⟩))
    rw [if_neg hC', if_neg hC]
    exact hgc

/-- With `mirrorX` set, the structural grid is column-symmetric after the
full structural pipeline. -/
theorem generate_grid_symmX (m : Mask) (o : SpriteOptions) (s : ℕ → ℚ)
    (sinPi : ℚ → ℚ) (hm : m.mirrorX = true) :
    symmX (effW m) (effH m) (generate m o s sinPi).grid := by
  simp only [generate, hm, if_true]
  rw [edges_eq_snapshot]
  apply edgeSnapshot_preserves_symmX
  by_cases hmy : m.mirrorY = true
  · rw [if_pos hmy]
    exact mirrorYPass_preserves_symmX _ _ _ (mirrorXPass_symmX _ _ _)
  · rw [if_neg hmy]
    exact mirrorXPass_symmX _ _ _

/-- With `mirrorY` set, the structural grid is row-symmetric after the
full structural pipeline. -/
theorem generate_grid_symmY (m : Mask) (o : SpriteOptions) (s : ℕ → ℚ)
    (sinPi : ℚ → ℚ) (hm : m.mirrorY = true) :
    symmY (effW m) (effH m) (generate m o s sinPi).grid := by
  simp only [generate, hm, if_true]
  rw [edges_eq_snapshot]
  exact edgeSnapshot_preserves_symmY _ _ _ (mirrorYPass_symmY _ _ _)

/-! ### Claim C1: mask-length validation -/

/-- C1: the source performs no validation of `mask.data.length` at
construction.  For the concrete mask `⟨data := [Empty], width := 2,
height := 1⟩` the construction proceeds: `applyMask` silently copies the
out-of-range read (JS `undefined`, modelled by `undefVal`) into the grid,
and the generation runs to completion producing a full-size pixel buffer,
contradicting the specified fail-fast validation error. -/
theorem c1_no_validation_generation_completes :
    (applyMask badMask initGrid) 1 0 = undefVal ∧
    (generate badMask defaultOptions (fun _ => 0) (fun _ => 0)).events.length
      = 4 * (effW badMask * effH badMask) := by
  constructor
  · decide
  · exact generate_events_length ..

/-! ### Claim C3: seeded determinism -/

/-- C3: for options carrying a seed, two independent generations — even ones
whose ambient unseeded randomness differs — read the reproducible
`seedrandom` stream of that seed and produce byte-identical pixel buffers:
the generation is a deterministic function of mask, options and seed. -/
theorem c3_seeded_determinism (m : Mask) (o : SpriteOptions) (sd : String)
    (amb1 amb2 : ℕ → ℚ) (sinPi : ℚ → ℚ) (h : o.seed = some sd) :
    (runSeeded m o amb1 sinPi).events = (runSeeded m o amb2 sinPi).events := by
  unfold runSeeded
  rw [h]

theorem c3_seeded_determinism_witness :
    (⟨false, 3/10, 1/5, 3/10, 1/2, some "a", none, none⟩ :
      SpriteOptions).seed = some "a" ∧
    (runSeeded ⟨[0], 1, 1, false, false⟩
        ⟨false, 3/10, 1/5, 3/10, 1/2, some "a", none, none⟩
        (fun _ => 0) (fun _ => 0)).events =
      (runSeeded ⟨[0], 1, 1, false, false⟩
        ⟨false, 3/10, 1/5, 3/10, 1/2, some "a", none, none⟩
        (fun _ => 1/2) (fun _ => 0)).events :=
  ⟨rfl, c3_seeded_determinism _ _ "a" _ _ _ rfl⟩

/-! ### Claim C4: the three-draw colour-change signal -/

/-- C4: at each gradient index the colour-change prelude of
`calculateColors` consumes exactly three draws of the form `next()*2-1`; the
signal compared against `1 - colorVariations` is `|lastDraw / 3|` where
`lastDraw` is the third of them (the first two are consumed but unused), and
the hue is reassigned to a fresh draw exactly when the signal exceeds
`1 - colorVariations` (consuming a fourth draw in that case). -/
theorem c4_three_draws_one_used (o : SpriteOptions) (s : ℕ → ℚ) (hue : ℚ)
    (i : ℕ) :
    newColorStep o s hue i =
      if |(s (i + 2) * 2 - 1) / 3| > 1 - o.colorVariations
      then (s (i + 3), i + 4) else (hue, i + 3) := rfl

/-! ### Claim C9: the odd-mirrored-axis warning -/

/-- C9: the constructor's warnings fire exactly when a mirrored effective
axis length is odd (`this.width % 2 && this.mask.mirrorX`, and the analogue
for the height), and the generation always proceeds to completion,
producing the full-size buffer, whether or not a warning fired. -/
theorem c9_warning_iff_odd_mirrored_axis (m : Mask) (o : SpriteOptions)
    (s : ℕ → ℚ) (sinPi : ℚ → ℚ) :
    ((warnX m ∨ warnY m) ↔
      ((m.mirrorX = true ∧ Odd (effW m)) ∨
       (m.mirrorY = true ∧ Odd (effH m)))) ∧
    (generate m o s sinPi).events.length = 4 * (effW m * effH m) := by
  constructor
  · unfold warnX warnY
    rw [Nat.odd_iff, Nat.odd_iff]
    cases hx : m.mirrorX <;> cases hy : m.mirrorY <;> simp [hx, hy] <;> omega
  · exact generate_events_length ..

/-! ### Claim C7: buffer size and write coverage -/

/-- The JS array length of the image buffer after any generation. -/
theorem generate_bufLen (m : Mask) (o : SpriteOptions) (s : ℕ → ℚ)
    (sinPi : ℚ → ℚ) :
    bufLen (generate m o s sinPi).events = 4 * (effW m * effH m) := by
  obtain ⟨isV, ulen, vlen, hmul, hfst⟩ := generate_events_fst m o s sinPi
  rw [bufLen_eq_foldMax, hfst, ← hmul]
  rcases Nat.eq_zero_or_pos (ulen * vlen) with h0 | hpos
  · have hnil : allIdx isV ulen vlen = [] :=
      List.eq_nil_iff_forall_not_mem.mpr (fun t ht => by
        have := mem_allIdx_lt isV ulen vlen t ht
        omega)
    rw [hnil, h0]
    rfl
  · apply Nat.le_antisymm
    · exact foldMax_le _ _ _ (by omega)
        (fun t ht => by have := mem_allIdx_lt isV ulen vlen t ht; omega)
    · have hmem := mem_allIdx isV ulen vlen (4 * (ulen * vlen) - 1) (by omega)
      have := le_foldMax (allIdx isV ulen vlen) 0 _ hmem
      omega

/-- C7: after every generation the pixel buffer has length exactly
`effectiveWidth * effectiveHeight * 4` (`bufLen` is the JS array length:
one past the largest index stored), and every byte index in that range is
stored exactly once by the colorization pass, whichever gradient axis was
drawn. -/
theorem c7_buffer_size_and_coverage (m : Mask) (o : SpriteOptions)
    (s : ℕ → ℚ) (sinPi : ℚ → ℚ) :
    bufLen (generate m o s sinPi).events = 4 * (effW m * effH m) ∧
    ∀ j, j < 4 * (effW m * effH m) →
      ((generate m o s sinPi).events.map Prod.fst).count j = 1 := by
  obtain ⟨isV, ulen, vlen, hmul, hfst⟩ := generate_events_fst m o s sinPi
  constructor
  · exact generate_bufLen m o s sinPi
  · intro j hj
    rw [hfst]
    exact List.count_eq_one_of_mem (nodup_allIdx ..)
      (mem_allIdx _ _ _ j (by omega))

theorem c7_buffer_size_and_coverage_witness :
    bufLen (generate badMask defaultOptions (fun _ => 0) (fun _ => 0)).events
      = 4 * (effW badMask * effH badMask) ∧
    (((generate badMask defaultOptions (fun _ => 0)
        (fun _ => 0)).events.map Prod.fst).count 5) = 1 :=
  ⟨(c7_buffer_size_and_coverage badMask defaultOptions (fun _ => 0)
      (fun _ => 0)).1,
   (c7_buffer_size_and_coverage badMask defaultOptions (fun _ => 0)
      (fun _ => 0)).2 5 (by decide)⟩

/-! ### Claim C6: the non-colored palette invariant -/

theorem flatQuad_none (o : SpriteOptions) (v : ℤ) (ht : o.tint = none) :
    flatQuad o v =
      if v = -1 then ((0 : ℚ), 0, 0, 255) else (255, 255, 255, 255) := by
  unfold flatQuad tintOf
  rw [ht]
  split_ifs with h1 h2 h2 <;> norm_num [Prod.ext_iff] <;> omega

/-- C6: with `colored = false` and no tint, every pixel of the output is
pure black with alpha 255 when its structural cell is `AlwaysBorder`, and
pure white with alpha 255 otherwise — in particular for cells holding
`RandomlyEmptyBody`, `RandomlyBorderBody` or `Empty`; no other pixel value
occurs. -/
theorem c6_noncolored_palette (m : Mask) (o : SpriteOptions) (s : ℕ → ℚ)
    (sinPi : ℚ → ℚ) (hc : o.colored = false) (ht : o.tint = none)
    (x y : ℕ) (hx : x < effW m) (hy : y < effH m) :
    pixQuad (generate m o s sinPi).events (effW m) x y =
      if (generate m o s sinPi).grid x y = -1 then ((0 : ℚ), 0, 0, 255)
      else (255, 255, 255, 255) := by
  rw [generate_pixQuad_flat m o s sinPi hc x y hx hy, flatQuad_none o _ ht]

theorem c6_noncolored_palette_witness :
    pixQuad (generate specMaskB defaultOptions (fun _ => 0)
        (fun _ => 0)).events (effW specMaskB) 0 1 =
      if (generate specMaskB defaultOptions (fun _ => 0)
            (fun _ => 0)).grid 0 1 = -1 then ((0 : ℚ), 0, 0, 255)
      else (255, 255, 255, 255) :=
  c6_noncolored_palette specMaskB defaultOptions (fun _ => 0) (fun _ => 0)
    rfl rfl 0 1 (by decide) (by decide)

/-! ### Claim C10: edgeBrightness independence when not colored -/

theorem generate_grid_congr (m : Mask) (o1 o2 : SpriteOptions) (s : ℕ → ℚ)
    (sinPi : ℚ → ℚ)
    (hcb : o1.randomSampleCallback = o2.randomSampleCallback) :
    (generate m o1 s sinPi).grid = (generate m o2 s sinPi).grid := by
  have hsc : ∀ g x y i, sampleCell o1 s g x y i = sampleCell o2 s g x y i := by
    intro g x y i
    simp only [sampleCell, hcb]
  have hrs : randomSample o1 s (effW m) (effH m) (applyMask m initGrid) 0 =
      randomSample o2 s (effW m) (effH m) (applyMask m initGrid) 0 := by
    unfold randomSample
    have hstep : (fun (gi : Grid × ℕ) (p : ℕ × ℕ) =>
          (setG gi.1 p.1 p.2 (sampleCell o1 s gi.1 p.1 p.2 gi.2).1,
           (sampleCell o1 s gi.1 p.1 p.2 gi.2).2)) =
        (fun (gi : Grid × ℕ) (p : ℕ × ℕ) =>
          (setG gi.1 p.1 p.2 (sampleCell o2 s gi.1 p.1 p.2 gi.2).1,
           (sampleCell o2 s gi.1 p.1 p.2 gi.2).2)) := by
      funext gi p
      rw [hsc]
    rw [hstep]
  simp only [generate]
  rw [hrs]

/-- C10: with `colored = false` the output is independent of
`edgeBrightness` — two generations that differ only in that option produce
byte-identical buffers (equal length and equal pixel at every cell). -/
theorem c10_edge_brightness_independent (m : Mask) (o : SpriteOptions)
    (e1 e2 : ℚ) (s : ℕ → ℚ) (sinPi : ℚ → ℚ) (hc : o.colored = false) :
    bufLen (generate m (withEdgeBrightness o e1) s sinPi).events =
      bufLen (generate m (withEdgeBrightness o e2) s sinPi).events ∧
    ∀ x y, x < effW m → y < effH m →
      pixQuad (generate m (withEdgeBrightness o e1) s sinPi).events
          (effW m) x y =
        pixQuad (generate m (withEdgeBrightness o e2) s sinPi).events
          (effW m) x y := by
  constructor
  · rw [generate_bufLen, generate_bufLen]
  · intro x y hx hy
    rw [generate_pixQuad_flat m (withEdgeBrightness o e1) s sinPi hc x y hx hy,
        generate_pixQuad_flat m (withEdgeBrightness o e2) s sinPi hc x y hx hy,
        generate_grid_congr m (withEdgeBrightness o e1)
          (withEdgeBrightness o e2) s sinPi rfl]
    have htq : ∀ v : ℤ, flatQuad (withEdgeBrightness o e1) v =
        flatQuad (withEdgeBrightness o e2) v := by
      intro v
      unfold flatQuad tintOf withEdgeBrightness
      rfl
    rw [htq]

theorem c10_edge_brightness_independent_witness :
    bufLen (generate specMaskB
        (withEdgeBrightness defaultOptions 0) (fun _ => 0)
        (fun _ => 0)).events =
      bufLen (generate specMaskB
        (withEdgeBrightness defaultOptions (1/2)) (fun _ => 0)
        (fun _ => 0)).events ∧
    ∀ x y, x < effW specMaskB → y < effH specMaskB →
      pixQuad (generate specMaskB
          (withEdgeBrightness defaultOptions 0) (fun _ => 0)
          (fun _ => 0)).events (effW specMaskB) x y =
        pixQuad (generate specMaskB
          (withEdgeBrightness defaultOptions (1/2)) (fun _ => 0)
          (fun _ => 0)).events (effW specMaskB) x y :=
  c10_edge_brightness_independent specMaskB defaultOptions 0 (1/2)
    (fun _ => 0) (fun _ => 0) rfl

/-! ### Claim C2: mirror symmetry of the pixel buffer -/

theorem outerLoop_one (o : SpriteOptions) (s : ℕ → ℚ) (sinPi : ℚ → ℚ)
    (g : Grid) (isV : Bool) (ulen vlen : ℕ) (sat : ℚ) (u : ℕ) (hue : ℚ)
    (i : ℕ) :
    outerLoop o s sinPi g isV ulen vlen sat u 1 hue i =
      ((innerLoop o s sinPi g isV ulen vlen u (newColorStep o s hue i).1 sat
          0 vlen (newColorStep o s hue i).2).1 ++ [],
       (innerLoop o s sinPi g isV ulen vlen u (newColorStep o s hue i).1 sat
          0 vlen (newColorStep o s hue i).2).2) := rfl

theorem innerLoop_two (o : SpriteOptions) (s : ℕ → ℚ) (sinPi : ℚ → ℚ)
    (g : Grid) (isV : Bool) (ulen vlen u : ℕ) (hue sat : ℚ) (v i : ℕ) :
    innerLoop o s sinPi g isV ulen vlen u hue sat v 2 i =
      ((colorCell o s sinPi g isV ulen vlen u v hue sat i).1 ++
        ((colorCell o s sinPi g isV ulen vlen u (v + 1) hue sat
            (colorCell o s sinPi g isV ulen vlen u v hue sat i).2).1 ++ []),
       (colorCell o s sinPi g isV ulen vlen u (v + 1) hue sat
          (colorCell o s sinPi g isV ulen vlen u v hue sat i).2).2) := rfl

/-- The concrete 2×1 mirrored colored generation stores these eight bytes:
the two mirrored columns get brightnesses `3/10` and `4/5` from their own
draws, hence different colour channels. -/
theorem c2_events_eval :
    (generate c2Mask c2Options c2Stream (fun _ => 0)).events =
      [(0, 153/2), (1, 153/2), (2, 153/2), (3, 255),
       (4, 204), (5, 204), (6, 204), (7, 255)] := by
  have hev : (generate c2Mask c2Options c2Stream (fun _ => 0)).events =
      (calculateColors c2Options c2Stream (fun _ => 0) 2 1
        ((generate c2Mask c2Options c2Stream (fun _ => 0)).grid) 0).1 := rfl
  have hg00 : (generate c2Mask c2Options c2Stream (fun _ => 0)).grid 0 0 = 1 :=
    by decide
  have hg10 : (generate c2Mask c2Options c2Stream (fun _ => 0)).grid 1 0 = 1 :=
    by decide
  have hnc : newColorStep c2Options c2Stream 0 3 = (0, 6) := by
    simp only [newColorStep]
    rw [if_neg]
    norm_num [show c2Stream 5 = 0 from rfl, abs_le,
      show c2Options.colorVariations = 1/5 from rfl]
  have hd : (decide (c2Stream 0 > 1/2)) = true :=
    decide_eq_true (by norm_num [show c2Stream 0 = 3/4 from rfl])
  rw [hev]
  simp only [calculateColors, hd, if_true]
  rw [show c2Stream 1 = 0 from rfl, show c2Stream 2 = 0 from rfl]
  rw [show max (min ((0:ℚ) * c2Options.saturation) 1) 0 = 0 by
    norm_num [show c2Options.saturation = 1/2 from rfl]]
  rw [outerLoop_one, hnc]
  simp only [innerLoop_two, colorCell, hg00, hg10]
  norm_num [hslToRgb, tintOf, show c2Options.colored = true from rfl,
    show c2Options.tint = none from rfl,
    show c2Options.brightnessNoise = 3/10 from rfl,
    show c2Stream 6 = 0 from rfl, show c2Stream 7 = 1/2 from rfl,
    Int.floor_zero]

/-- C2, counterexample to the claim as stated: with `colored = true` the
mirrored structural halves do not yield mirrored pixels, because each
non-empty cell consumes its own brightness draw.  For the concrete 2×1
mirrored generation above (all draws in `[0,1)`), column 0 lies in
`[0, effectiveWidth/2)` yet its pixel differs from the pixel of column
`effectiveWidth - 1 - 0`. -/
theorem c2_colored_counterexample :
    c2Mask.mirrorX = true ∧ 0 < effW c2Mask / 2 ∧
    pixQuad (generate c2Mask c2Options c2Stream (fun _ => 0)).events
        (effW c2Mask) 0 0 ≠
      pixQuad (generate c2Mask c2Options c2Stream (fun _ => 0)).events
        (effW c2Mask) (effW c2Mask - 1 - 0) 0 := by
  refine ⟨rfl, by decide, ?_⟩
  rw [c2_events_eval, show effW c2Mask = 2 from rfl]
  intro hEq
  have h1 := congrArg (fun q : ℚ × ℚ × ℚ × ℚ => q.1) hEq
  norm_num [pixQuad, writeLookup] at h1

/-- C2, amended: the pixel-level mirror symmetry holds for every options
record with `colored = false` (where a pixel is a function of its cell's
structural code alone); with `colored = true` it can fail.  If `mirrorX`
is set then for all rows `y` and `x in [0, effectiveWidth/2)` the four
RGBA bytes at column `x` equal those at column `effectiveWidth - 1 - x`,
and the analogous row symmetry holds for `mirrorY`. -/
theorem c2_mirror_symmetry_noncolored (m : Mask) (o : SpriteOptions)
    (s : ℕ → ℚ) (sinPi : ℚ → ℚ) (hc : o.colored = false) :
    (m.mirrorX = true → ∀ x y, y < effH m → x < effW m / 2 →
      pixQuad (generate m o s sinPi).events (effW m) x y =
        pixQuad (generate m o s sinPi).events (effW m)
          (effW m - 1 - x) y) ∧
    (m.mirrorY = true → ∀ x y, x < effW m → y < effH m / 2 →
      pixQuad (generate m o s sinPi).events (effW m) x y =
        pixQuad (generate m o s sinPi).events (effW m)
          x (effH m - 1 - y)) := by
  constructor
  · intro hm x y hy hxx
    have hx : x < effW m := by omega
    have hx' : effW m - 1 - x < effW m := by omega
    rw [generate_pixQuad_flat m o s sinPi hc x y hx hy,
        generate_pixQuad_flat m o s sinPi hc _ y hx' hy,
        generate_grid_symmX m o s sinPi hm x y hx hy]
  · intro hm x y hx hyy
    have hy : y < effH m := by omega
    have hy' : effH m - 1 - y < effH m := by omega
    rw [generate_pixQuad_flat m o s sinPi hc x y hx hy,
        generate_pixQuad_flat m o s sinPi hc x _ hx hy',
        generate_grid_symmY m o s sinPi hm x y hx hy]

theorem c2_mirror_symmetry_noncolored_witness :
    pixQuad (generate c2Mask defaultOptions c2Stream (fun _ => 0)).events
        (effW c2Mask) 0 0 =
      pixQuad (generate c2Mask defaultOptions c2Stream (fun _ => 0)).events
        (effW c2Mask) (effW c2Mask - 1 - 0) 0 :=
  (c2_mirror_symmetry_noncolored c2Mask defaultOptions c2Stream
    (fun _ => 0) rfl).1 rfl 0 0 (by decide) (by decide)

end Mixel
